import Mathlib

/-!
Verification development for the HBase-shell scan-output parsing subsystem
(`summer_modules/database/hbase/ssh_output_resolve.py`), the sensitive-command
handling of the interactive SSH executor (`summer_modules/ssh/__init__.py`),
and the scan-command builder of
(`packages/summer_modules_database/.../hbase/hbase_api.py`).

Python strings are embedded as `List Char`.  Each Python `re` pattern used by
the source is implemented as a dedicated character-level matcher whose
semantics (including greedy maximal-munch behaviour, which is sound for these
patterns because adjacent character classes are disjoint, and backtracking
where it matters) is documented at the definition.  Python control flow that
does not terminate (the classifier loop of `reconstruct_truncated_lines` does
not advance its index on a line matching none of its branches) and Python
exceptions (`float()` raising `ValueError`) are modelled by `Option.none`.
-/

set_option maxRecDepth 20000

namespace SummerModules

/-- Python strings, embedded as lists of characters. -/
abbrev Str := List Char

/-- Literal helper: the character list of a Lean string literal. -/
def lit (s : String) : Str := s.data

/-- The whitespace class of Python `str.strip` / regex `\s`
(ASCII range; the inputs handled by this subsystem are ASCII). -/
def isPySpace (c : Char) : Bool :=
  c == ' ' || c == '\t' || c == '\n' || c == '\r' || c == Char.ofNat 11 || c == Char.ofNat 12

/-- Python `str.lstrip()`. -/
def pyLstrip (s : Str) : Str := s.dropWhile isPySpace

/-- Python `str.rstrip()`. -/
def pyRstrip (s : Str) : Str := (s.reverse.dropWhile isPySpace).reverse

/-- Python `str.strip()`. -/
def pyStrip (s : Str) : Str := pyRstrip (pyLstrip s)

/-- Python `str.lower()` (ASCII). -/
def pyLower (s : Str) : Str := s.map Char.toLower

/-- Python `s.split(sep)` for a single-character separator `sep`. -/
def splitChar (sep : Char) : Str → List Str
  | [] => [[]]
  | c :: rest =>
    if c == sep then [] :: splitChar sep rest
    else
      match splitChar sep rest with
      | [] => [[c]]
      | h :: t => (c :: h) :: t

/-- Break a string at the first occurrence of the character `sep`:
`some (before, after)` (separator removed), or `none` if `sep` is absent. -/
def breakChar (sep : Char) : Str → Option (Str × Str)
  | [] => none
  | c :: rest =>
    if c == sep then some ([], rest)
    else
      match breakChar sep rest with
      | none => none
      | some (a, b) => some (c :: a, b)

/-- Python `s.split(sep, 1)` for a single-character separator. -/
def pySplit1 (sep : Char) (s : Str) : List Str :=
  match breakChar sep s with
  | none => [s]
  | some (a, b) => [a, b]

/-- Python `s.split(sep, 2)` for a single-character separator. -/
def pySplit2 (sep : Char) (s : Str) : List Str :=
  match breakChar sep s with
  | none => [s]
  | some (a, b) =>
    match breakChar sep b with
    | none => [a, b]
    | some (c, d) => [a, c, d]

/-- Python `s.split(", ")` (leftmost, non-overlapping, no maxsplit). -/
def splitCommaSpace : Str → List Str
  | [] => [[]]
  | ',' :: ' ' :: rest => [] :: splitCommaSpace rest
  | c :: rest =>
    match splitCommaSpace rest with
    | [] => [[c]]
    | h :: t => (c :: h) :: t

/-- Python `needle in hay` (substring containment). -/
def containsSub (needle : Str) : Str → Bool
  | [] => needle.isEmpty
  | c :: rest => needle.isPrefixOf (c :: rest) || containsSub needle rest

/-- Split at every Python-whitespace character. -/
def splitWs : Str → List Str
  | [] => [[]]
  | c :: rest =>
    if isPySpace c then [] :: splitWs rest
    else
      match splitWs rest with
      | [] => [[c]]
      | h :: t => (c :: h) :: t

/-- The maximal non-whitespace tokens of a string, in order. -/
def pyTokens (s : Str) : List Str := (splitWs s).filter (fun t => !t.isEmpty)

/-- Digit-string to the number Python `int()` returns on it. -/
def natOfDigits (ds : Str) : Nat := ds.foldl (fun n c => 10 * n + (c.toNat - 48)) 0

/-! ### The regex patterns of `ssh_output_resolve.py`, as character-level matchers

Each matcher below implements one concrete pattern from the source.  For the
patterns whose adjacent pieces use disjoint character classes (digits vs
whitespace vs literals), greedy maximal-munch scanning is exactly the regex
semantics, so `takeWhile`/`dropWhile` is a faithful implementation. -/

/-- `re.match(r"scan\s+", line)`: the line starts with `scan` followed by at
least one whitespace character. -/
def matchScanCmd (s : Str) : Bool :=
  match s with
  | 's' :: 'c' :: 'a' :: 'n' :: c :: _ => isPySpace c
  | _ => false

/-- One position of `r"\d+\s+row\(s\)"`: at this position there is a nonempty
digit run, then a nonempty whitespace run, then the literal `row(s)`.
(`\d+`/`\s+` maximal-munch is sound: digits, whitespace and `r` are pairwise
disjoint.) -/
def rowcountAt (s : Str) : Bool :=
  let ds := s.takeWhile Char.isDigit
  let r1 := s.dropWhile Char.isDigit
  let ws := r1.takeWhile isPySpace
  let r2 := r1.dropWhile isPySpace
  !ds.isEmpty && !ws.isEmpty && (lit "row(s)").isPrefixOf r2

/-- `re.search(r"\d+\s+row\(s\)", s) is not None`. -/
def searchRowcount : Str → Bool
  | [] => false
  | c :: rest => rowcountAt (c :: rest) || searchRowcount rest

/-- `re.search(r"(\d+)\s+row\(s\)", s)`: the captured digit run of the
leftmost match, if any. -/
def searchRowcountCap : Str → Option Str
  | [] => none
  | c :: rest =>
    if rowcountAt (c :: rest) then some ((c :: rest).takeWhile Char.isDigit)
    else searchRowcountCap rest

/-- One position of `r"Took\s+([\d.]+)\s+seconds"`: the captured `[\d.]+` run
if the whole pattern matches at this position.  Maximal-munch is sound: the
classes `\s`, `[\d.]` and the literals are pairwise disjoint at each joint. -/
def tookAt (s : Str) : Option Str :=
  if (lit "Took").isPrefixOf s then
    let r0 := s.drop 4
    let ws1 := r0.takeWhile isPySpace
    let r1 := r0.dropWhile isPySpace
    let cap := r1.takeWhile (fun c => c.isDigit || c == '.')
    let r2 := r1.dropWhile (fun c => c.isDigit || c == '.')
    let ws2 := r2.takeWhile isPySpace
    let r3 := r2.dropWhile isPySpace
    if !ws1.isEmpty && !cap.isEmpty && !ws2.isEmpty && (lit "seconds").isPrefixOf r3
    then some cap else none
  else none

/-- `re.search(r"Took\s+([\d.]+)\s+seconds", s)`: capture of the leftmost
match, if any. -/
def searchTook : Str → Option Str
  | [] => none
  | c :: rest =>
    match tookAt (c :: rest) with
    | some cap => some cap
    | none => searchTook rest

/-- `re.match(r"hbase\(main\):\d+:\d+>", s)`. -/
def matchPrompt (s : Str) : Bool :=
  if (lit "hbase(main):").isPrefixOf s then
    let r0 := s.drop 12
    let d1 := r0.takeWhile Char.isDigit
    let r1 := r0.dropWhile Char.isDigit
    match r1 with
    | ':' :: r2 =>
      let d2 := r2.takeWhile Char.isDigit
      let r3 := r2.dropWhile Char.isDigit
      !d1.isEmpty && !d2.isEmpty &&
        (match r3 with
         | '>' :: _ => true
         | _ => false)
    | _ => false
  else false

/-- `re.match(r"^\s*([^\s]+(?:\s+[^\s]+)*)\s+column=", line) is not None`
(the source's `is_data_row_start`).

With backtracking, this pattern matches exactly when the line's maximal
non-whitespace tokens are `t1 t2 ... tn` and some `ti` with `i ≥ 2` starts
with the literal `column=`: the group `([^\s]+(?:\s+[^\s]+)*)` consumes
`t1 .. t(i-1)` (each inner `[^\s]+` is forced to a full token because it is
followed by `\s+`), the final `\s+` consumes the separator before `ti`, and
the literal matches a prefix of `ti`; conversely any match yields such an
`i`. -/
def is_data_row_start (line : Str) : Bool :=
  match pyTokens line with
  | [] => false
  | _ :: rest => rest.any (fun t => (lit "column=").isPrefixOf t)

/-- `re.match(r"\s[^\s]+\s*$", line)`: one whitespace char, a nonempty
non-whitespace run, then only whitespace to the end. -/
def matchRkOnlyCont (s : Str) : Bool :=
  match s with
  | c :: rest =>
    isPySpace c &&
      (let tok := rest.takeWhile (fun d => !isPySpace d)
       let r := rest.dropWhile (fun d => !isPySpace d)
       !tok.isEmpty && r.all isPySpace)
  | [] => false

/-- `re.match(r"\s[^\s]+\s[^\s]+", line)`: one whitespace char, a nonempty
non-whitespace run, one whitespace char, then a non-whitespace char.
(The first `[^\s]+` is forced maximal by the following `\s`.) -/
def matchRkColCont (s : Str) : Bool :=
  match s with
  | c :: rest =>
    isPySpace c &&
      (let tok := rest.takeWhile (fun d => !isPySpace d)
       let r := rest.dropWhile (fun d => !isPySpace d)
       !tok.isEmpty &&
         (match r with
          | d :: e :: _ => isPySpace d && !isPySpace e
          | _ => false))
  | [] => false

/-- The class `[ \t\r\f\v]` (Python whitespace without `\n`). -/
def isClassWs (c : Char) : Bool :=
  c == ' ' || c == '\t' || c == '\r' || c == Char.ofNat 11 || c == Char.ofNat 12

/-- `re.match(r"\s[^\s]+[ \t\r\f\v]*[^\s]+", line)`.  With backtracking this
matches iff: the first char is whitespace, the next char starts a nonempty
non-whitespace run `R`, and either `R` has length at least 2 (split `R`
between the two `[^\s]+` with the middle class matching empty), or after `R`
a run of `[ \t\r\f\v]` is followed by a non-whitespace character. -/
def matchRkColCont2 (s : Str) : Bool :=
  match s with
  | c :: rest =>
    isPySpace c &&
      (let tok := rest.takeWhile (fun d => !isPySpace d)
       let r := rest.dropWhile (fun d => !isPySpace d)
       if tok.isEmpty then false
       else if 2 ≤ tok.length then true
       else
         match r.dropWhile isClassWs with
         | e :: _ => !isPySpace e
         | [] => false)
  | [] => false

/-- `re.match(r"column=([^\s:]+):([^\s]+)", s)`: the two captures.
Maximal-munch sound: `[^\s:]` excludes the following `:`; the trailing
`([^\s]+)` is greedy with nothing after it. -/
def matchColumnFamQual (s : Str) : Option (Str × Str) :=
  if (lit "column=").isPrefixOf s then
    let r0 := s.drop 7
    let fam := r0.takeWhile (fun c => !isPySpace c && c != ':')
    let r1 := r0.dropWhile (fun c => !isPySpace c && c != ':')
    if fam.isEmpty then none
    else
      match r1 with
      | ':' :: r2 =>
        let qual := r2.takeWhile (fun c => !isPySpace c)
        if qual.isEmpty then none else some (fam, qual)
      | _ => none
  else none

/-- `re.match(r"timestamp=(\d+)", s)`, with the `int()` conversion applied to
the capture. -/
def matchTimestamp (s : Str) : Option Nat :=
  if (lit "timestamp=").isPrefixOf s then
    let ds := (s.drop 10).takeWhile Char.isDigit
    if ds.isEmpty then none else some (natOfDigits ds)
  else none

/-- `re.match(r"value=(.*)", s)`: `.` does not match a newline, so the capture
is everything up to the first newline (the inputs here are single lines). -/
def matchValue (s : Str) : Option Str :=
  if (lit "value=").isPrefixOf s then
    some ((s.drop 6).takeWhile (fun c => c != '\n'))
  else none

/-- The single-quote character (written by code to avoid a quoted quote). -/
def quoteC : Char := Char.ofNat 39

/-- One position of `r"scan\s+'([^']+)'"`: the captured table name if the
pattern matches here. -/
def scanTableAt (s : Str) : Option Str :=
  if (lit "scan").isPrefixOf s then
    let r0 := s.drop 4
    let ws := r0.takeWhile isPySpace
    let r1 := r0.dropWhile isPySpace
    if ws.isEmpty then none
    else
      match r1 with
      | c :: r2 =>
        if c == quoteC then
          let cap := r2.takeWhile (fun d => d != quoteC)
          let r3 := r2.dropWhile (fun d => d != quoteC)
          match r3 with
          | q :: _ => if !cap.isEmpty && q == quoteC then some cap else none
          | [] => none
        else none
      | [] => none
  else none

/-- `re.search(r"scan\s+'([^']+)'", s)`: capture of the leftmost match. -/
def searchScanTable : Str → Option Str
  | [] => none
  | c :: rest =>
    match scanTableAt (c :: rest) with
    | some cap => some cap
    | none => searchScanTable rest

/-- Python `float()` applied to a capture of `[\d.]+` (the only place the
source calls `float`), idealized as exact decimal arithmetic over `ℚ`:
`float` succeeds on such a string iff it has at most one `.` and at least one
digit; otherwise `ValueError` is raised (modelled by `none`). -/
def pyFloatOfCapture (s : Str) : Option ℚ :=
  match splitChar '.' s with
  | [ip] =>
    if !ip.isEmpty && ip.all Char.isDigit then some (mkRat (natOfDigits ip) 1)
    else none
  | [ip, fp] =>
    if (!ip.isEmpty || !fp.isEmpty) && ip.all Char.isDigit && fp.all Char.isDigit then
      some (mkRat (natOfDigits ip * 10 ^ fp.length + natOfDigits fp) (10 ^ fp.length))
    else none
  | _ => none

/-! ### Data model (`hbase_model.py`) -/

/-- `HBaseColumn`: one parsed cell. -/
structure HBaseColumn where
  column_family : Str
  column_qualifier : Str
  timestamp : Nat
  value : Str
deriving DecidableEq

/-- `HBaseRow`: a row key with its cells. -/
structure HBaseRow where
  row_key : Str
  columns : List HBaseColumn
deriving DecidableEq

/-- `HBaseScanResult` (the fields populated by
`parse_hbase_shell_scan_cmd_output`). -/
structure HBaseScanResult where
  success : Bool
  error_message : Str
  table_name : Str
  command : Str
  row_count : Nat
  execution_time : ℚ
  rows : List HBaseRow
  last_row_key : Option Str := none
deriving DecidableEq

/-- `ReconstructTruncatedLinesResult`.  `data_lines` is `Option` because
`reconstruct_complete_data_row` returns Python `None` when it produces no
lines. -/
structure ReconstructTruncatedLinesResult where
  original : Str
  success : Bool
  command_line : Str
  row_title_line : Str
  data_lines : Option (List Str)
  row_count_line : Str
  execution_time_line : Str
  subsequent_command_line : Str
  reconstructed : Str
deriving DecidableEq

/-! ### `reconstruct_single_data_row` -/

/-- One iteration of the continuation-line loop of
`reconstruct_single_data_row`, carrying `(row_key, column)`.  Mirrors the
source branch for branch: blank lines are skipped; a line starting with two
spaces appends its stripped text to the column; a line starting with one
space is classified by the three regexes in the source's order; anything
else is logged and skipped. -/
def rsdrStep (acc : Str × Str) (l : Str) : Str × Str :=
  let rk := acc.1
  let col := acc.2
  let line := pyRstrip l
  if (pyStrip line).isEmpty then (rk, col)
  else if (lit "  ").isPrefixOf line then (rk, col ++ pyStrip line)
  else if (lit " ").isPrefixOf line then
    if matchRkOnlyCont line then (rk ++ pyStrip line, col)
    else if matchRkColCont line then
      match pySplit2 ' ' line with
      | [_, p1, p2] => (rk ++ pyStrip p1, col ++ pyStrip p2)
      | _ => (rk, col)
    else if matchRkColCont2 line then
      match pySplit2 ' ' line with
      | [_, p1, p2] => (rk ++ pyStrip p1, col ++ pyStrip p2)
      | _ => (rk, col)
    else (rk, col)
  else (rk, col)

/-- `reconstruct_single_data_row(stand_line)`: the first line is split on the
first space after `lstrip` into the initial row key and column text (an
unsplittable first line yields `""`); the remaining lines are folded by
`rsdrStep`; the result is `" " + row_key + " " + column`. -/
def reconstruct_single_data_row (stand_line : List Str) : Str :=
  match stand_line with
  | [] => []
  | first :: rest =>
    let fl := pyRstrip first
    match pySplit1 ' ' (pyLstrip fl) with
    | [p0, p1] =>
      let rc := rest.foldl rsdrStep (pyStrip p0, pyStrip p1)
      ' ' :: (rc.1 ++ ' ' :: rc.2)
    | _ => []

/-! ### `reconstruct_complete_data_row` -/

/-- One step of the grouping loop of `reconstruct_complete_data_row` over the
buffered data lines.  The state is `some (finished groups, open group)`
(`open group = []` when no group is open, i.e. before the first line);
`none` records the source's `return None` branch taken when a line arrives
with no group open and is not a data-row start. -/
def groupStep (acc : Option (List (List Str) × List Str)) (l : Str) :
    Option (List (List Str) × List Str) :=
  match acc with
  | none => none
  | some (done, cur) =>
    let line := pyRstrip l
    match cur with
    | [] => if is_data_row_start line then some (done, [line]) else none
    | _ =>
      if (pyStrip line).isEmpty then some (done, cur)
      else if is_data_row_start line then some (done ++ [cur], [line])
      else some (done, cur ++ [line])

/-- `reconstruct_complete_data_row(lines)`: group the lines at the data-row
start lines, rebuild each group with `reconstruct_single_data_row`, drop
empty reconstructions, and return `None` when nothing remains (or when the
first line is not a data-row start). -/
def reconstruct_complete_data_row (lines : List Str) : Option (List Str) :=
  match lines.foldl groupStep (some ([], [])) with
  | none => none
  | some (done, cur) =>
    let gs := if cur.isEmpty then done else done ++ [cur]
    let rl := (gs.map reconstruct_single_data_row).filter (fun r => !r.isEmpty)
    if rl.isEmpty then none else some rl

/-! ### `reconstruct_truncated_lines`

The source's `while` loop advances its index in every branch except when a
line matches none of the six classifiers — in that case the Python loop
spins forever.  The loop is embedded as a single left fold with an
`absorbing` flag for the inner command-absorption loop (which consumes lines
until a header/summary line) and a `stuck` flag marking the diverging case;
`reconstruct_truncated_lines` returns `none` exactly when the Python call
never returns. -/

structure CState where
  stuck : Bool
  absorbing : Bool
  cmd_parts : List Str
  recon : List Str
  command_line : Str
  row_title_line : Str
  data_lines : List Str
  row_count_line : Str
  execution_time_line : Str
  subsequent_command_line : Str
deriving DecidableEq

def initCState : CState :=
  ⟨false, false, [], [], [], [], [], [], [], []⟩

/-- Close the command being absorbed: `command_line = "".join(parts).strip()`
is recorded and appended to the reconstructed lines. -/
def closeCommand (st : CState) : CState :=
  let cmd := pyStrip (List.flatten st.cmd_parts)
  { st with absorbing := false, cmd_parts := [],
            command_line := cmd, recon := st.recon ++ [cmd] }

/-- The classifier chain of the outer loop, applied to one line (`rstrip`ed),
in the source's branch order. -/
def classifyMain (st : CState) (l : Str) : CState :=
  let cur := pyRstrip l
  if matchScanCmd cur then
    { st with absorbing := true, cmd_parts := [cur] }
  else if (lit "ROW").isPrefixOf cur && containsSub (lit "COLUMN+CELL") cur then
    { st with row_title_line := pyStrip cur, recon := st.recon ++ [pyStrip cur] }
  else if (lit " ").isPrefixOf cur then
    { st with data_lines := st.data_lines ++ [cur] }
  else if searchRowcount cur then
    { st with row_count_line := pyStrip cur }
  else if (searchTook cur).isSome then
    { st with execution_time_line := pyStrip cur }
  else if matchPrompt cur then
    { st with subsequent_command_line := pyStrip cur }
  else { st with stuck := true }

/-- One line of the outer loop.  While absorbing a command, the `strip`ped
line is tested against the inner loop's break conditions (header line, or
`re.search(r"\d+\s+row\(s\)|Took\s+[\d.]+\s+seconds", ...)`); on a break the
command closes and the same line is reclassified, otherwise a nonempty line
is absorbed into the command. -/
def classifyStep (st : CState) (l : Str) : CState :=
  if st.stuck then st
  else if st.absorbing then
    let nl := pyStrip l
    if ((lit "ROW").isPrefixOf nl && containsSub (lit "COLUMN+CELL") nl)
        || searchRowcount nl || (searchTook nl).isSome then
      classifyMain (closeCommand st) l
    else if nl.isEmpty then st
    else { st with cmd_parts := st.cmd_parts ++ [nl] }
  else classifyMain st l

/-- After the last line, a still-open command absorption closes (the Python
inner loop ends at the end of input and assigns `command_line`). -/
def finalizeCState (st : CState) : CState :=
  if st.stuck then st
  else if st.absorbing then closeCommand st
  else st

/-- `output.replace("\r\n", "\n")` (leftmost, non-overlapping). -/
def replCRLF : Str → Str
  | [] => []
  | '\r' :: '\n' :: rest => '\n' :: replCRLF rest
  | c :: rest => c :: replCRLF rest

/-- `.replace("\r\n", "\n").replace("\r", "\n")`. -/
def normalizeNewlines (s : Str) : Str :=
  (replCRLF s).map (fun c => if c == '\r' then '\n' else c)

/-- `reconstruct_truncated_lines(output)`; `none` models the diverging case
(a line matching no classifier). -/
def reconstruct_truncated_lines (output : Str) :
    Option ReconstructTruncatedLinesResult :=
  let lines := splitChar '\n' (normalizeNewlines output)
  let st := finalizeCState (lines.foldl classifyStep initCState)
  if st.stuck then none
  else
    let rdl := reconstruct_complete_data_row st.data_lines
    let recon := st.recon
      ++ (match rdl with
          | some ls => ls
          | none => [])
      ++ (if st.row_count_line.isEmpty then [] else [st.row_count_line])
      ++ (if st.execution_time_line.isEmpty then [] else [st.execution_time_line])
      ++ (if st.subsequent_command_line.isEmpty then []
          else [st.subsequent_command_line])
    some
      { original := output
        success := true
        command_line := st.command_line
        row_title_line := st.row_title_line
        data_lines := rdl
        row_count_line := st.row_count_line
        execution_time_line := st.execution_time_line
        subsequent_command_line := st.subsequent_command_line
        reconstructed := List.intercalate ['\n'] recon }

/-! ### Row/column extraction -/

/-- `extract_row_key_and_column_from_reconstructed_data_line(data_line)`.
Note the faithful modelling of the source's `column_part.split(", ")`
without a maxsplit: the value segment taken is element `[2]` of the full
split, so text after a `", "` inside the value is dropped. -/
def extract_row_key_and_column_from_reconstructed_data_line (data_line : Str) :
    Str × Option HBaseColumn :=
  match pySplit1 ' ' (pyLstrip data_line) with
  | [p0, p1] =>
    let row_key := pyStrip p0
    let column_part := pyStrip p1
    (match splitCommaSpace column_part with
     | ci :: ts :: vp :: _ =>
       (match matchColumnFamQual (pyStrip ci) with
        | none => (row_key, none)
        | some fq =>
          (match matchTimestamp (pyStrip ts) with
           | none => (row_key, none)
           | some t =>
             (match matchValue (pyStrip vp) with
              | none => (row_key, none)
              | some v =>
                (row_key, some ⟨pyStrip fq.1, pyStrip fq.2, t, v⟩))))
     | _ => (row_key, none))
  | _ => ([], none)

/-- Insert a cell into the insertion-ordered row map of
`extract_rows_from_reconstructed_data_lines`: append the cell to the row
with this key if present, else append a fresh row at the end. -/
def addToRowMap (m : List HBaseRow) (rk : Str) (c : HBaseColumn) :
    List HBaseRow :=
  if m.any (fun r => r.row_key == rk) then
    m.map (fun r =>
      if r.row_key == rk then { r with columns := r.columns ++ [c] } else r)
  else m ++ [⟨rk, [c]⟩]

/-- One line of the grouping loop: invalid lines (empty row key or no cell)
are skipped. -/
def extractRowsStep (m : List HBaseRow) (dl : Str) : List HBaseRow :=
  match extract_row_key_and_column_from_reconstructed_data_line dl with
  | (rk, some c) => if rk.isEmpty then m else addToRowMap m rk c
  | (_, none) => m

/-- `extract_rows_from_reconstructed_data_lines(data_lines)`. -/
def extract_rows_from_reconstructed_data_lines (data_lines : List Str) :
    List HBaseRow :=
  data_lines.foldl extractRowsStep []

/-! ### `parse_hbase_shell_scan_cmd_output` -/

def msgEmptyOutput : Str :=
  lit "HBase Shell 扫描命令没有输出任何信息, 这种情况理论上不应该发生, 请手动调试检查"

def msgNoCommandLine : Str := lit "无法从输出中提取命令行"

def msgNoTableName : Str := lit "无法从命令行中提取表名"

def msgNoTimeLine : Str := lit "无法从输出中提取执行时间行"

def msgNoTime : Str := lit "无法从输出中提取执行时间"

def msgNoRowCountLine : Str := lit "无法从输出中提取行数统计行"

def msgNoRowCount : Str := lit "无法从输出中提取行数统计"

def msgNoDataLines : Str := lit "无法从输出中提取数据行"

def msgNoValidRows : Str := lit "没有提取到任何有效的行数据"

/-- `parse_hbase_shell_scan_cmd_output(output)`.  The result record is
threaded exactly as the source mutates its `result` object, so each early
error return carries the fields already populated.  `none` models the two
ways the Python call fails to return a `HBaseScanResult`: divergence inside
`reconstruct_truncated_lines`, and the uncaught `ValueError` from
`float()` on a capture such as `"."`. -/
def parse_hbase_shell_scan_cmd_output (output : Str) : Option HBaseScanResult :=
  let r0 : HBaseScanResult := ⟨false, [], [], [], 0, 0, [], none⟩
  if (pyStrip output).isEmpty then some { r0 with error_message := msgEmptyOutput }
  else
    match reconstruct_truncated_lines output with
    | none => none
    | some rr =>
      if rr.command_line.isEmpty then
        some { r0 with error_message := msgNoCommandLine }
      else
        let r1 := { r0 with command := pyStrip rr.command_line }
        match searchScanTable r1.command with
        | none => some { r1 with error_message := msgNoTableName }
        | some tbl =>
          let r2 := { r1 with table_name := pyStrip tbl }
          if rr.execution_time_line.isEmpty then
            some { r2 with error_message := msgNoTimeLine }
          else
            match searchTook rr.execution_time_line with
            | none => some { r2 with error_message := msgNoTime }
            | some cap =>
              match pyFloatOfCapture cap with
              | none => none
              | some t =>
                let r3 := { r2 with execution_time := t }
                if rr.row_count_line.isEmpty then
                  some { r3 with error_message := msgNoRowCountLine }
                else
                  match searchRowcountCap rr.row_count_line with
                  | none => some { r3 with error_message := msgNoRowCount }
                  | some ds =>
                    let r4 := { r3 with row_count := natOfDigits ds }
                    match rr.data_lines with
                    | none => some { r4 with error_message := msgNoDataLines }
                    | some dls =>
                      if dls.isEmpty then
                        some { r4 with error_message := msgNoDataLines }
                      else
                        let rows := extract_rows_from_reconstructed_data_lines dls
                        if rows.isEmpty then
                          some { r4 with error_message := msgNoValidRows }
                        else some { r4 with success := true, rows := rows }

/-! ### `SSHConnection._is_sensitive_command` and the `command_outputs` map
(`summer_modules/ssh/__init__.py`) -/

/-- `SSHConnection._is_sensitive_command(command, command_context,
current_index)`: `True` exactly when the context is nonempty, the index is
positive, and `command_context[current_index - 1].strip().lower()` starts
with `"sudo "`.  (The `command` argument itself is unused by the source.) -/
def is_sensitive_command (_command : Str) (command_context : List Str)
    (current_index : Nat) : Bool :=
  if !command_context.isEmpty && decide (0 < current_index) then
    (lit "sudo ").isPrefixOf (pyLower (pyStrip (command_context.getD (current_index - 1) [])))
  else false

/-- `CommandResult` (transport-level record of one executed command). -/
structure CommandResult where
  command : Str
  output : Str
  index : Nat
  is_sensitive : Bool
deriving DecidableEq

/-- Python-dict insertion with overwrite-on-existing-key, preserving
insertion order (`command_outputs[result.command] = ...`). -/
def dictInsert (m : List (Str × Str)) (k v : Str) : List (Str × Str) :=
  if m.any (fun p => p.1 == k) then
    m.map (fun p => if p.1 == k then (k, v) else p)
  else m ++ [(k, v)]

/-- The `command_outputs` dictionary built by
`execute_interactive_commands`: for a sensitive command the stored entry is
the mask `"***"`, never the captured output. -/
def build_command_outputs (results : List CommandResult) : List (Str × Str) :=
  results.foldl
    (fun m r => dictInsert m r.command (if r.is_sensitive then lit "***" else r.output)) []

/-- Python dict lookup on the insertion-ordered representation. -/
def dictLookup : List (Str × Str) → Str → Option Str
  | [], _ => none
  | p :: t, k => if p.1 == k then some p.2 else dictLookup t k

/-! ### The scan-command builder
(`HBaseAPI.get_data_with_timerage_via_ssh`, `hbase_api.py`) -/

/-- A Python timezone-aware `datetime`, modelled by the absolute instant it
denotes (microseconds since the Unix epoch — `datetime` has microsecond
resolution) together with its timezone offset. -/
structure PyDatetime where
  epochMicros : Int
  tzOffsetMinutes : Int
deriving DecidableEq

/-- `dt.astimezone(ZoneInfo("UTC"))`: same instant, UTC offset. -/
def astimezoneUTC (d : PyDatetime) : PyDatetime := ⟨d.epochMicros, 0⟩

/-- `int(dt.timestamp() * 1000)`: `timestamp()` is seconds since the epoch
(idealized as exact arithmetic rather than binary floating point) and
`int()` truncates toward zero. -/
def pyTimestampMs (d : PyDatetime) : Int := d.epochMicros.tdiv 1000

/-- The four-way command construction of
`get_data_with_timerage_via_ssh`, exactly as the source's f-strings build
it after `astimezone(UTC)` and millisecond conversion. -/
def scan_timerange_command (table_name : String)
    (start_datetime end_datetime : PyDatetime)
    (start_row_key : Option String) (batch_size : Option Int) : String :=
  let s := toString (pyTimestampMs (astimezoneUTC start_datetime))
  let e := toString (pyTimestampMs (astimezoneUTC end_datetime))
  match start_row_key, batch_size with
  | none, none =>
    "scan '" ++ table_name ++ "', \x7bTIMERANGE => [" ++ s ++ ", " ++ e ++ "]\x7d"
  | none, some n =>
    "scan '" ++ table_name ++ "', \x7bTIMERANGE => [" ++ s ++ ", " ++ e
      ++ "], LIMIT => " ++ toString n ++ "\x7d"
  | some k, none =>
    "scan '" ++ table_name ++ "', \x7bTIMERANGE => [" ++ s ++ ", " ++ e
      ++ "], STARTROW => '" ++ k ++ "'\x7d"
  | some k, some n =>
    "scan '" ++ table_name ++ "', \x7bTIMERANGE => [" ++ s ++ ", " ++ e
      ++ "], STARTROW => '" ++ k ++ "', LIMIT => " ++ toString n ++ "\x7d"

/-- The command string as the spec describes it: the scan command over the
epoch-millisecond integers of the UTC instants (the instant of an aware
datetime is offset-independent), with `LIMIT`/`STARTROW` appended inside the
same options map when given. -/
def spec_scan_command (table_name : String)
    (start_datetime end_datetime : PyDatetime)
    (start_row_key : Option String) (batch_size : Option Int) : String :=
  let s := toString (start_datetime.epochMicros.tdiv 1000)
  let e := toString (end_datetime.epochMicros.tdiv 1000)
  let base := "scan '" ++ table_name ++ "', \x7bTIMERANGE => [" ++ s ++ ", " ++ e ++ "]"
  match start_row_key, batch_size with
  | none, none => base ++ "\x7d"
  | none, some n => base ++ ", LIMIT => " ++ toString n ++ "\x7d"
  | some k, none => base ++ ", STARTROW => '" ++ k ++ "'\x7d"
  | some k, some n =>
    base ++ ", STARTROW => '" ++ k ++ "', LIMIT => " ++ toString n ++ "\x7d"

/-! ### Hex-escape normalization (`format_hbase_shell_json_output`) -/

/-- The backslash character. -/
def bslash : Char := Char.ofNat 92

/-- `[0-9A-Fa-f]`. -/
def isHexDigitC (c : Char) : Bool :=
  c.isDigit || ('A' ≤ c && c ≤ 'F') || ('a' ≤ c && c ≤ 'f')

/-- Value of a hex digit. -/
def hexVal (c : Char) : Nat :=
  if c.isDigit then c.toNat - 48
  else if 'A' ≤ c && c ≤ 'F' then c.toNat - 55
  else c.toNat - 87

/-- `HEX_ESCAPE_PATTERN.sub(replace_hex_escape, json_str)` with
`HEX_ESCAPE_PATTERN = re.compile(r"\\x([0-9A-Fa-f]{2})")`: scan left to
right; at a match (backslash, `x`, two hex digits) emit `chr(int(hh, 16))`
and continue after the match; otherwise emit the character and advance by
one. -/
def hexUnescape : Str → Str
  | [] => []
  | c :: rest =>
    let fallback := c :: hexUnescape rest
    match rest with
    | 'x' :: a :: b :: rest2 =>
      if c == bslash && isHexDigitC a && isHexDigitC b then
        Char.ofNat (16 * hexVal a + hexVal b) :: hexUnescape rest2
      else fallback
    | _ => fallback

/-- Whether the string contains an occurrence of `\xHH` (backslash, `x`, two
hex digits) anywhere. -/
def hasHexEscape : Str → Bool
  | [] => false
  | c :: rest =>
    (c == bslash &&
      match rest with
      | 'x' :: a :: b :: _ => isHexDigitC a && isHexDigitC b
      | _ => false) || hasHexEscape rest

/-! ## Claims -/

/-! ### C1: the concrete six-line transcript -/

/-- The six-line transcript from the spec's concrete scenario. -/
def C1transcript : Str :=
  lit "scan 'mytable', \x7bTIMERANGE => [1000, 2000]\x7d\nROW                    COLUMN+CELL\n rowA                  column=cf:q1, timestamp=1500, value=v1\n1 row(s)\nTook 0.05 seconds\nhbase(main):002:0>"

/-- C1: parsing the spec's six-line transcript yields a successful
`HBaseScanResult` with table `mytable`, the scan command echoed back,
`row_count = 1`, `execution_time = 0.05` seconds, and a single row `rowA`
holding the single cell `(cf, q1, 1500, v1)`. -/
theorem C1_concrete_transcript_parses :
    parse_hbase_shell_scan_cmd_output C1transcript =
      some
        { success := true
          error_message := []
          table_name := lit "mytable"
          command := lit "scan 'mytable', \x7bTIMERANGE => [1000, 2000]\x7d"
          row_count := 1
          execution_time := 0.05
          rows := [⟨lit "rowA", [⟨lit "cf", lit "q1", 1500, lit "v1"⟩]⟩]
          last_row_key := none } := by
  rw [show (0.05 : ℚ) = mkRat 1 20 by norm_num]
  decide

/-! ### C3: the `value=` segment and comma-space sequences

The claim says the value field is the entire rest of the line after
`value=`, not further comma-split.  The source, however, splits the whole
column part on every `", "` and takes element `[2]`, so a value containing
`", "` is truncated at its first `", "`.  The theorem below evaluates the
parser at such a line: for the value text `a, b` the extracted cell's value
is `a`, not `a, b` — contradicting the claim (and the spec's stated intent,
which the sibling `parse_manual_full_export_file_to_json` implements with
`split(", ", maxsplit=2)`). -/

/-- C3 (code bug witness): on a reconstructed line whose value text is
`a, b`, the extraction returns the truncated value `a`, not the full
rest-of-line `a, b` required by the claim. -/
theorem C3_value_comma_truncation :
    extract_row_key_and_column_from_reconstructed_data_line
        (lit " rowA column=cf:q1, timestamp=1500, value=a, b") =
      (lit "rowA", some ⟨lit "cf", lit "q1", 1500, lit "a"⟩) ∧
    lit "a" ≠ lit "a, b" := by
  exact ⟨by decide, by decide⟩

/-! ### C2: fragment reconstruction -/

/-- C2 (counterexample): the round trip fails for a split at an arbitrary
position.  Splitting the logical line
`" rowA column=cf:q1, timestamp=1500, value=v1"` right before the space
that follows `cf:q1,` (column-continuation variant: the second physical
line is the two-space indent plus the rest of the column text) loses that
space, because both fragments are `strip`ped before concatenation. -/
theorem C2_arbitrary_split_fails :
    reconstruct_single_data_row
        [lit " rowA column=cf:q1,", lit "   timestamp=1500, value=v1"] =
      lit " rowA column=cf:q1,timestamp=1500, value=v1" ∧
    lit " rowA column=cf:q1,timestamp=1500, value=v1" ≠
      lit " rowA column=cf:q1, timestamp=1500, value=v1" := by
  exact ⟨by decide, by decide⟩

/-! ### C5: totality of the parser -/

/-- C5 (counterexample): the parser does not return a `ScanResult` for every
input.  On `"scan 't'\nTook . seconds"` the execution-time capture is `"."`
(`[\d.]+` matches a lone dot), and Python's `float(".")` raises an uncaught
`ValueError`, so the call raises instead of returning — modelled here by
`none`. -/
theorem C5_float_valueerror_input :
    parse_hbase_shell_scan_cmd_output (lit "scan 't'\nTook . seconds") = none := by
  decide

/-- The spec transcript with the `1 row(s)` summary line removed. -/
def C5transcriptNoRowCount : Str :=
  lit "scan 'mytable', \x7bTIMERANGE => [1000, 2000]\x7d\nROW                    COLUMN+CELL\n rowA                  column=cf:q1, timestamp=1500, value=v1\nTook 0.05 seconds\nhbase(main):002:0>"

/-- The spec transcript with the single data line removed. -/
def C5transcriptNoData : Str :=
  lit "scan 'mytable', \x7bTIMERANGE => [1000, 2000]\x7d\nROW                    COLUMN+CELL\n1 row(s)\nTook 0.05 seconds\nhbase(main):002:0>"

/-- C5 (amended): whenever the reconstruction pass terminates (the Python
classifier loop spins forever on a line matching none of its patterns) and
the captured execution-time text is accepted by `float()`, the parser
returns a `ScanResult` — it raises only through `float()`'s `ValueError`;
moreover, on the transcript missing the `row(s)` summary line it returns
`success=False` with the error message naming the row-count-line section,
and on the transcript with zero data lines it returns `success=False` with
the error message naming the data-line section. -/
theorem C5_total_parse_amended :
    (∀ (output : Str) (r : ReconstructTruncatedLinesResult),
        reconstruct_truncated_lines output = some r →
        (∀ cap, searchTook r.execution_time_line = some cap →
          (pyFloatOfCapture cap).isSome = true) →
        (parse_hbase_shell_scan_cmd_output output).isSome = true) ∧
    (parse_hbase_shell_scan_cmd_output C5transcriptNoRowCount).map
        (fun x => (x.success, x.error_message)) = some (false, msgNoRowCountLine) ∧
    (parse_hbase_shell_scan_cmd_output C5transcriptNoData).map
        (fun x => (x.success, x.error_message)) = some (false, msgNoDataLines) := by
  refine ⟨?_, by decide, by decide⟩
  intro output r hrec hflt
  unfold parse_hbase_shell_scan_cmd_output
  rw [hrec]
  dsimp only
  repeat' split
  all_goals simp_all

/-- The reconstruction record of the witness input
`"scan 't'\nTook 0.05 seconds"`. -/
def C5witnessRecon : ReconstructTruncatedLinesResult :=
  { original := lit "scan 't'\nTook 0.05 seconds"
    success := true
    command_line := lit "scan 't'"
    row_title_line := []
    data_lines := none
    row_count_line := []
    execution_time_line := lit "Took 0.05 seconds"
    subsequent_command_line := []
    reconstructed := lit "scan 't'\nTook 0.05 seconds" }

/-- Witness for C5 (amended), discharging both hypotheses at a concrete
input whose time capture `0.05` is float-parseable. -/
theorem C5_total_parse_amended_witness :
    (parse_hbase_shell_scan_cmd_output (lit "scan 't'\nTook 0.05 seconds")).isSome
      = true := by
  refine C5_total_parse_amended.1 (lit "scan 't'\nTook 0.05 seconds")
    C5witnessRecon (by decide) ?_
  intro cap h
  have e : searchTook C5witnessRecon.execution_time_line = some (lit "0.05") := by
    decide
  rw [e] at h
  cases h
  decide

/-! ### C7: sensitive-command detection and masking -/

/-- C7 (counterexample): the code's sensitivity test is not "the previous
command begins with `sudo `": it first `strip`s and `lower`s the previous
command.  With context `["SUDO id", "pw"]` the command at index 1 is
classified sensitive although `"SUDO id"` does not begin with `"sudo "`,
refuting the claim's biconditional at this input. -/
theorem C7_case_insensitive_sudo_detection :
    is_sensitive_command (lit "pw") [lit "SUDO id", lit "pw"] 1 = true ∧
    (lit "sudo ").isPrefixOf (lit "SUDO id") = false := by
  exact ⟨by decide, by decide⟩

/-- A key-`k` lookup is unchanged by overwriting the entries of another
key `k2`. -/
theorem dictLookup_map_overwrite (t : List (Str × Str)) (k2 k v : Str)
    (h : (k2 == k) = false) :
    dictLookup (t.map (fun q => if q.1 == k2 then (k2, v) else q)) k =
      dictLookup t k := by
  induction t with
  | nil => rfl
  | cons q t ih =>
    by_cases hq : (q.1 == k2) = true
    · have e : q.1 = k2 := by simpa using hq
      have hqk : q.1 ≠ k := by
        simp only [e]
        simpa using h
      have hk2 : k2 ≠ k := by simpa using h
      simp only [beq_iff_eq] at ih
      simp [dictLookup, hq, hqk, hk2, ih]
    · simp only [beq_iff_eq] at ih
      simp [dictLookup, hq, ih]

/-- A key-`k` lookup is unchanged by appending an entry for another key. -/
theorem dictLookup_append_other (t : List (Str × Str)) (k2 k v : Str)
    (h : (k2 == k) = false) :
    dictLookup (t ++ [(k2, v)]) k = dictLookup t k := by
  induction t with
  | nil => simp [dictLookup, h]
  | cons q t ih =>
    by_cases hq : (q.1 == k) = true
    · simp [dictLookup, hq]
    · simp [dictLookup, hq, ih]

/-- Looking up the just-inserted key returns the just-inserted value. -/
theorem dictLookup_insert_self (m : List (Str × Str)) (k v : Str) :
    dictLookup (dictInsert m k v) k = some v := by
  induction m with
  | nil => simp [dictInsert, dictLookup]
  | cons p t ih =>
    by_cases h : (p.1 == k) = true
    · have e : p.1 = k := by simpa using h
      have hany : (p :: t).any (fun q => q.1 == k) = true := by simp [h]
      simp [dictInsert, hany, dictLookup, e]
    · have hne : p.1 ≠ k := by simpa using h
      by_cases h2 : t.any (fun q => q.1 == k) = true
      · have e : dictInsert t k v = t.map (fun q => if q.1 == k then (k, v) else q) := by
          simp [dictInsert, h2]
        have hany : (p :: t).any (fun q => q.1 == k) = true := by simp [h2]
        have step :
            dictInsert (p :: t) k v =
              p :: t.map (fun q => if q.1 == k then (k, v) else q) := by
          simp [dictInsert, hany, hne]
        rw [step, dictLookup, if_neg (by simp [hne]), ← e, ih]
      · have e : dictInsert t k v = t ++ [(k, v)] := by simp [dictInsert, h2]
        have hany : (p :: t).any (fun q => q.1 == k) = false := by
          simp [h, h2]
        have step : dictInsert (p :: t) k v = p :: (t ++ [(k, v)]) := by
          simp [dictInsert, hany]
        rw [step, dictLookup, if_neg (by simp [hne]), ← e, ih]

/-- Inserting under a different key does not change a lookup. -/
theorem dictLookup_insert_other (m : List (Str × Str)) (k2 k v : Str)
    (h : (k2 == k) = false) :
    dictLookup (dictInsert m k2 v) k = dictLookup m k := by
  by_cases hany : m.any (fun q => q.1 == k2) = true
  · have e : dictInsert m k2 v = m.map (fun q => if q.1 == k2 then (k2, v) else q) := by
      simp [dictInsert, hany]
    rw [e, dictLookup_map_overwrite m k2 k v h]
  · have e : dictInsert m k2 v = m ++ [(k2, v)] := by simp [dictInsert, hany]
    rw [e, dictLookup_append_other m k2 k v h]

/-- The step function building `command_outputs`. -/
def buildOutputsStep (m : List (Str × Str)) (r : CommandResult) : List (Str × Str) :=
  dictInsert m r.command (if r.is_sensitive then lit "***" else r.output)

/-- Invariant for the masking property: once a key whose results are all
sensitive is present (or will be inserted), its final entry is the mask. -/
theorem build_outputs_mask_aux (rs : List CommandResult) :
    ∀ (m : List (Str × Str)) (k : Str),
      (∀ r ∈ rs, r.command = k → r.is_sensitive = true) →
      ((∃ r ∈ rs, r.command = k) ∨ dictLookup m k = some (lit "***")) →
      dictLookup (rs.foldl buildOutputsStep m) k = some (lit "***") := by
  induction rs with
  | nil =>
    intro m k _ hin
    rcases hin with ⟨r, hr, _⟩ | h
    · cases hr
    · simpa using h
  | cons r t ih =>
    intro m k hall hin
    simp only [List.foldl_cons]
    by_cases hc : (r.command == k)
    · have hck : r.command = k := by simpa using hc
      have hs : r.is_sensitive = true := hall r (by simp) hck
      refine ih (buildOutputsStep m r) k (fun x hx hk => hall x (by simp [hx]) hk) ?_
      right
      have : dictLookup (buildOutputsStep m r) r.command = some (lit "***") := by
        simpa [buildOutputsStep, hs] using dictLookup_insert_self m r.command (lit "***")
      simpa [hck] using this
    · have step : dictLookup (buildOutputsStep m r) k = dictLookup m k :=
        dictLookup_insert_other m r.command k _ (by simpa using hc)
      refine ih (buildOutputsStep m r) k (fun x hx hk => hall x (by simp [hx]) hk) ?_
      rcases hin with ⟨x, hx, hk⟩ | h
      · rcases List.mem_cons.mp hx with rfl | hx2
        · exact absurd hk (by simpa using hc)
        · exact Or.inl ⟨x, hx2, hk⟩
      · exact Or.inr (step.trans h)

/-- C7 (amended): (1) a command at a valid index `i` is classified sensitive
exactly when `i > 0` and the command at `i-1`, after `strip()` and
`lower()`, begins with `sudo `; (2) the `command_outputs` entry stored for a
command all of whose results are sensitive is the mask `"***"`, regardless
of any captured output text; (3) two runs whose command sequences agree on
command text and sensitivity and differ only in the outputs captured for
sensitive commands produce identical `command_outputs` maps. -/
theorem C7_sensitivity_and_masking :
    (∀ (cmd : Str) (ctx : List Str) (i : Nat), i < ctx.length →
        (is_sensitive_command cmd ctx i = true ↔
          0 < i ∧
            (lit "sudo ").isPrefixOf (pyLower (pyStrip (ctx.getD (i - 1) []))) = true)) ∧
    (∀ (rs : List CommandResult) (r : CommandResult), r ∈ rs →
        (∀ x ∈ rs, x.command = r.command → x.is_sensitive = true) →
        dictLookup (build_command_outputs rs) r.command = some (lit "***")) ∧
    (∀ (rsa rsb : List CommandResult),
        List.Forall₂
          (fun a b => a.command = b.command ∧ a.is_sensitive = b.is_sensitive ∧
            (a.is_sensitive = false → a.output = b.output)) rsa rsb →
        build_command_outputs rsa = build_command_outputs rsb) := by
  refine ⟨?_, ?_, ?_⟩
  · intro cmd ctx i hi
    have hne : ctx.isEmpty = false := by
      cases ctx with
      | nil => simp at hi
      | cons a t => rfl
    constructor
    · intro h
      by_cases hp : 0 < i
      · exact ⟨hp, by simpa [is_sensitive_command, hne, hp] using h⟩
      · simp [is_sensitive_command, hne, hp] at h
    · rintro ⟨hp, h⟩
      simpa [is_sensitive_command, hne, hp] using h
  · intro rs r hr hall
    exact build_outputs_mask_aux rs [] r.command hall (Or.inl ⟨r, hr, rfl⟩)
  · intro rsa rsb hrel
    have main : ∀ m, rsa.foldl buildOutputsStep m = rsb.foldl buildOutputsStep m := by
      induction hrel with
      | nil => intro m; rfl
      | cons hab hrest ih =>
        intro m
        rename_i a b la lb
        obtain ⟨hcmd, hsens, hout⟩ := hab
        have hstep : buildOutputsStep m a = buildOutputsStep m b := by
          unfold buildOutputsStep
          rw [hcmd, hsens]
          by_cases hs : b.is_sensitive
          · simp [hs]
          · simp only [Bool.not_eq_true] at hs
            rw [hs, hout (hsens.trans hs)]
        simp only [List.foldl_cons, hstep]
        exact ih (buildOutputsStep m b)
    exact main []

/-- Witness for C7 (amended): the classifier equivalence at
`ctx = ["sudo id", "hunter2"]`, `i = 1`, and the masking of that password
entry in a concrete run (both hypotheses discharged concretely); the
invariance applied to two singleton runs differing only in the sensitive
output. -/
theorem C7_sensitivity_and_masking_witness :
    (is_sensitive_command (lit "hunter2") [lit "sudo id", lit "hunter2"] 1 = true ↔
      0 < 1 ∧
        (lit "sudo ").isPrefixOf
          (pyLower (pyStrip ([lit "sudo id", lit "hunter2"].getD 0 []))) = true) ∧
    dictLookup
        (build_command_outputs
          [⟨lit "sudo id", lit "uid=0(root)", 0, false⟩,
           ⟨lit "hunter2", lit "secret-echo", 1, true⟩])
        (lit "hunter2") = some (lit "***") ∧
    build_command_outputs [⟨lit "hunter2", lit "secret-echo-A", 1, true⟩] =
      build_command_outputs [⟨lit "hunter2", lit "secret-echo-B", 1, true⟩] := by
  refine ⟨C7_sensitivity_and_masking.1 (lit "hunter2")
      [lit "sudo id", lit "hunter2"] 1 (by decide),
    C7_sensitivity_and_masking.2.1 _ ⟨lit "hunter2", lit "secret-echo", 1, true⟩
      (by decide) ?_,
    C7_sensitivity_and_masking.2.2 _ _ ?_⟩
  · intro x hx hcmd
    fin_cases hx
    · exact absurd hcmd (by decide)
    · rfl
  · exact List.Forall₂.cons (by refine ⟨rfl, rfl, ?_⟩; intro h; cases h) List.Forall₂.nil

/-! ### C8: the scan-command construction -/

/-- C8: for every table name, pair of timezone-aware datetimes, optional
start row key and optional batch size, the command built by
`get_data_with_timerage_via_ssh` is exactly the spec's string: the scan over
`TIMERANGE => [start_ms, end_ms]` with the bounds obtained from the UTC
instants (independent of the datetimes' original offsets), with
`LIMIT => N` appended inside the options map when a batch size is given and
`STARTROW => '<key>'` included when a start row key is given. -/
theorem C8_scan_command_construction (table_name : String)
    (start_datetime end_datetime : PyDatetime)
    (start_row_key : Option String) (batch_size : Option Int) :
    scan_timerange_command table_name start_datetime end_datetime
        start_row_key batch_size =
      spec_scan_command table_name start_datetime end_datetime
        start_row_key batch_size := by
  cases start_row_key <;> cases batch_size <;>
    simp [scan_timerange_command, spec_scan_command, pyTimestampMs, astimezoneUTC,
      String.append_assoc]

/-! ### C9: hex-escape normalization -/

/-- The escape text `\x41\x42` as a character list. -/
def escAB : Str := [bslash, 'x', '4', '1', bslash, 'x', '4', '2']

theorem hexUnescape_base (s2 : Str) :
    hexUnescape (escAB ++ s2) = 'A' :: 'B' :: hexUnescape s2 := rfl

theorem hexUnescape_step (s1 s2 : Str) (hne : s1 ≠ []) :
    ∃ (u t : Str), t.length < s1.length ∧
      hexUnescape (s1 ++ escAB ++ s2) = u ++ hexUnescape (t ++ escAB ++ s2) := by
  rcases s1 with _ | ⟨c, s1t⟩
  · exact absurd rfl hne
  rw [List.cons_append, List.cons_append]
  rcases s1t with _ | ⟨x1, t1⟩
  · refine ⟨[c], [], by simp, ?_⟩
    have hno : ∀ (a b : Char) (r2 : List Char),
        ([] : Str) ++ escAB ++ s2 = 'x' :: a :: b :: r2 → False := by
      intro a b r2 h
      rw [List.nil_append, escAB] at h
      simp only [List.cons_append, List.cons.injEq] at h
      exact absurd h.1 (by decide)
    rw [hexUnescape.eq_3 c (([] : Str) ++ escAB ++ s2) hno]
    simp
  by_cases hx1 : x1 = 'x'
  · subst hx1
    rcases t1 with _ | ⟨y, t2p⟩
    · refine ⟨[c], ['x'], by simp, ?_⟩
      have e : ('x' :: ([] : Str)) ++ escAB ++ s2 =
          'x' :: bslash :: 'x' :: '4' :: '1' :: bslash :: 'x' :: '4' :: '2' :: s2 := by
        simp [escAB]
      rw [e, hexUnescape.eq_2]
      have hb : isHexDigitC bslash = false := by decide
      simp only [hb, Bool.and_false, Bool.false_and, Bool.false_eq_true, if_false]
      simp [escAB]
    rcases t2p with _ | ⟨z, t2⟩
    · refine ⟨[c], ['x', y], by simp, ?_⟩
      have e : ('x' :: [y]) ++ escAB ++ s2 =
          'x' :: y :: bslash :: 'x' :: '4' :: '1' :: bslash :: 'x' :: '4' :: '2' :: s2 := by
        simp [escAB]
      rw [e, hexUnescape.eq_2]
      have hb : isHexDigitC bslash = false := by decide
      simp only [hb, Bool.and_false, Bool.false_eq_true, if_false]
      simp [escAB]
    · have e : ('x' :: y :: z :: t2) ++ escAB ++ s2 =
          'x' :: y :: z :: (t2 ++ escAB ++ s2) := by simp
      rw [e, hexUnescape.eq_2]
      by_cases hcond : (c == bslash && isHexDigitC y && isHexDigitC z) = true
      · refine ⟨[Char.ofNat (16 * hexVal y + hexVal z)], t2, by simp; omega, ?_⟩
        rw [if_pos hcond]
        simp
      · refine ⟨[c], 'x' :: y :: z :: t2, by simp, ?_⟩
        rw [if_neg hcond]
        simp
  · refine ⟨[c], x1 :: t1, by simp, ?_⟩
    have hno : ∀ (a b : Char) (r2 : List Char),
        (x1 :: t1) ++ escAB ++ s2 = 'x' :: a :: b :: r2 → False := by
      intro a b r2 h
      rw [List.cons_append, List.cons_append] at h
      simp only [List.cons.injEq] at h
      exact absurd h.1 hx1
    rw [hexUnescape.eq_3 c ((x1 :: t1) ++ escAB ++ s2) hno]
    simp

theorem hexUnescape_infix_AB (s1 s2 : Str) :
    lit "AB" <:+: hexUnescape (s1 ++ escAB ++ s2) := by
  have main : ∀ (n : Nat) (s1 : Str), s1.length ≤ n → ∀ s2 : Str,
      lit "AB" <:+: hexUnescape (s1 ++ escAB ++ s2) := by
    intro n
    induction n with
    | zero =>
      intro s1 h1 s2
      have e : s1 = [] := List.length_eq_zero.mp (Nat.le_zero.mp h1)
      subst e
      rw [List.nil_append, hexUnescape_base]
      exact ⟨[], hexUnescape s2, rfl⟩
    | succ n ihn =>
      intro s1 h1 s2
      rcases eq_or_ne s1 [] with rfl | hne
      · rw [List.nil_append, hexUnescape_base]
        exact ⟨[], hexUnescape s2, rfl⟩
      · obtain ⟨u, t, hlt, heq⟩ := hexUnescape_step s1 s2 hne
        rw [heq]
        have hrec := ihn t (by omega) s2
        exact hrec.trans (List.suffix_append u _).isInfix
  exact main s1.length s1 le_rfl s2

theorem hexUnescape_id_of_no_escape (s : Str) (h : hasHexEscape s = false) :
    hexUnescape s = s := by
  induction s with
  | nil => rfl
  | cons c rest ih =>
    rcases rest with _ | ⟨x, r1⟩
    · rw [hexUnescape.eq_3 c [] (by intro a b r2 hh; cases hh)]
      rw [ih rfl]
    · by_cases hx : x = 'x'
      · subst hx
        rcases r1 with _ | ⟨a, r2⟩
        · have hno : ∀ (a b : Char) (r2 : List Char),
              ('x' :: ([] : Str)) = 'x' :: a :: b :: r2 → False := by
            intro a b r2 hh
            simp only [List.cons.injEq] at hh
            exact List.noConfusion hh.2
          rw [hasHexEscape.eq_3 c _ hno] at h
          rw [hexUnescape.eq_3 c _ hno]
          rw [ih (by simpa using Bool.or_eq_false_iff.mp h |>.2)]
        rcases r2 with _ | ⟨b, r3⟩
        · have hno : ∀ (a2 b2 : Char) (r2 : List Char),
              ('x' :: [a]) = 'x' :: a2 :: b2 :: r2 → False := by
            intro a2 b2 r2 hh
            simp only [List.cons.injEq] at hh
            exact List.noConfusion hh.2.2
          rw [hasHexEscape.eq_3 c _ hno] at h
          rw [hexUnescape.eq_3 c _ hno]
          rw [ih (by simpa using Bool.or_eq_false_iff.mp h |>.2)]
        · rw [hasHexEscape.eq_2] at h
          obtain ⟨hcnd, hrest⟩ := Bool.or_eq_false_iff.mp h
          rw [hexUnescape.eq_2]
          have hcond : (c == bslash && isHexDigitC a && isHexDigitC b) = false := by
            simp only [Bool.and_eq_false_iff] at hcnd ⊢
            tauto
          rw [hcond]
          simp only [Bool.false_eq_true, if_false]
          rw [ih hrest]
      · have hno : ∀ (a b : Char) (r2 : List Char),
            (x :: r1) = 'x' :: a :: b :: r2 → False := by
          intro a b r2 hh
          simp only [List.cons.injEq] at hh
          exact absurd hh.1 hx
        rw [hasHexEscape.eq_3 c _ hno] at h
        rw [hexUnescape.eq_3 c _ hno]
        rw [ih (by simpa using Bool.or_eq_false_iff.mp h |>.2)]

/-- `format_hbase_shell_json_output` with the Python-stdlib `json.loads`
abstracted as a parameter: the source hex-unescapes the input and hands the
result to the JSON parser. -/
def format_hbase_shell_json_output (α : Type) (json_loads : Str → Option α)
    (json_str : Str) : Option α :=
  json_loads (hexUnescape json_str)

/-- C9: (1) the hex-escape normalization replaces every `\xHH` occurrence by
the character with code `HH`, so for any input containing the literal text
`\x41\x42` the string handed to the JSON parser contains the adjacent
characters `AB`; (2) an input with no `\xHH` occurrence reaches the JSON
parser unchanged. -/
theorem C9_hex_escape_normalization :
    (∀ s1 s2 : Str, lit "AB" <:+: hexUnescape (s1 ++ lit "\\x41\\x42" ++ s2)) ∧
    (∀ (α : Type) (json_loads : Str → Option α) (s : Str),
        hasHexEscape s = false →
        format_hbase_shell_json_output α json_loads s = json_loads s) := by
  constructor
  · intro s1 s2
    have e : lit "\\x41\\x42" = escAB := by decide
    rw [e]
    exact hexUnescape_infix_AB s1 s2
  · intro α json_loads s h
    unfold format_hbase_shell_json_output
    rw [hexUnescape_id_of_no_escape s h]

/-- Witness for C9: the `AB` infix at a concrete input, and the no-escape
identity discharged at a concrete escape-free input. -/
theorem C9_hex_escape_normalization_witness :
    lit "AB" <:+: hexUnescape (lit "pre\\x41\\x42post") ∧
    hasHexEscape (lit "plain value") = false ∧
    format_hbase_shell_json_output (List Char) some (lit "plain value") =
      some (lit "plain value") := by
  refine ⟨?_, by decide, ?_⟩
  · have e : lit "pre\\x41\\x42post" = lit "pre" ++ lit "\\x41\\x42" ++ lit "post" := by
      decide
    rw [e]
    exact C9_hex_escape_normalization.1 (lit "pre") (lit "post")
  · exact C9_hex_escape_normalization.2 (List Char) some (lit "plain value") (by decide)


/-! ### C10: a bad first data line discards the whole data section -/

/-- `foldl groupStep` is constantly `none` once the failure state is
reached. -/
theorem foldl_groupStep_none (ls : List Str) :
    ls.foldl groupStep none = none := by
  induction ls with
  | nil => rfl
  | cons l ls ih => simpa [groupStep] using ih

/-- A transcript whose first data line (` garbage noise`) does not match the
data-row-start pattern, followed by a perfectly well-formed data line. -/
def C10transcript : Str :=
  lit "scan 'mytable', \x7bTIMERANGE => [1000, 2000]\x7d\nROW COLUMN+CELL\n garbage noise\n rowA column=cf:q1, timestamp=1500, value=v1\n1 row(s)\nTook 0.05 seconds\nhbase(main):002:0>"

/-- C10: if the first buffered data-section line is not a data-row start,
`reconstruct_complete_data_row` returns `None` — discarding every later
well-formed record — and consequently `parse_hbase_shell_scan_cmd_output`
fails the whole scan (here with the missing-data-lines error), even though
the remaining data line is well-formed. -/
theorem C10_first_bad_data_line_discards_all :
    (∀ (l : Str) (ls : List Str), is_data_row_start (pyRstrip l) = false →
        reconstruct_complete_data_row (l :: ls) = none) ∧
    (parse_hbase_shell_scan_cmd_output C10transcript).map
        (fun r => (r.success, r.error_message, r.rows)) =
      some (false, msgNoDataLines, []) := by
  constructor
  · intro l ls h
    unfold reconstruct_complete_data_row
    have h1 : (l :: ls).foldl groupStep (some ([], [])) = none := by
      simp only [List.foldl_cons, groupStep, h, if_false]
      exact foldl_groupStep_none ls
    rw [h1]
  · decide

/-! ### C6: idempotence of reconstruction (counterexample) -/

/-- A transcript in which the `ROW ... COLUMN+CELL` header precedes the scan
command echo and the data line is not adjacent to the command. -/
def C6badInput : Str :=
  lit "ROW COLUMN+CELL\nscan 't1'\n1 row(s)\n r1 column=cf:q, timestamp=5, value=v\nTook 0.05 seconds"

/-- First reconstruction of `C6badInput`: the sections are re-emitted in
canonical order (header, command, data, summary), which places the data line
directly after the command echo. -/
def C6firstRecon : Str :=
  lit "ROW COLUMN+CELL\nscan 't1'\n r1 column=cf:q, timestamp=5, value=v\n1 row(s)\nTook 0.05 seconds"

/-- Second reconstruction: the command-absorption loop now swallows the data
line into the command (there is no header between them to stop it). -/
def C6secondRecon : Str :=
  lit "ROW COLUMN+CELL\nscan 't1'r1 column=cf:q, timestamp=5, value=v\n1 row(s)\nTook 0.05 seconds"

/-- C6 (counterexample): applying `reconstruct_truncated_lines` to the
`reconstructed` string of a first application does not always return the
same reconstructed string or the same extracted data lines: on `C6badInput`
the second pass merges the data line into the command line and extracts no
data lines at all. -/
theorem C6_reconstruction_not_idempotent :
    (reconstruct_truncated_lines C6badInput).map
        (fun r => r.reconstructed) = some C6firstRecon ∧
    (reconstruct_truncated_lines C6firstRecon).map
        (fun r => r.reconstructed) = some C6secondRecon ∧
    C6firstRecon ≠ C6secondRecon ∧
    (reconstruct_truncated_lines C6badInput).map (fun r => r.data_lines) =
      some (some [lit " r1 column=cf:q, timestamp=5, value=v"]) ∧
    (reconstruct_truncated_lines C6firstRecon).map (fun r => r.data_lines) =
      some none := by
  refine ⟨by decide, by decide, by decide, by decide, by decide⟩

/-- Witness for the hypothesis of the first conjunct of C10: a concrete line
that is not a data-row start, with a concrete well-formed successor, gives
`none`. -/
theorem C10_first_bad_data_line_discards_all_witness :
    is_data_row_start (pyRstrip (lit " garbage noise")) = false ∧
    reconstruct_complete_data_row
        [lit " garbage noise", lit " rowA column=cf:q1, timestamp=1500, value=v1"] =
      none :=
  ⟨by decide,
   C10_first_bad_data_line_discards_all.1 (lit " garbage noise")
     [lit " rowA column=cf:q1, timestamp=1500, value=v1"] (by decide)⟩

/-! ### C4: row-grouping closure -/


/-- The row keys of a row map. -/
def rowKeys (m : List HBaseRow) : List Str := m.map (fun r => r.row_key)

/-- Total number of cells in a row map. -/
def cellCount (m : List HBaseRow) : Nat := (m.map (fun r => r.columns.length)).sum

/-- A data line that yields a nonempty row key and a cell. -/
def lineValid (dl : Str) : Bool :=
  match extract_row_key_and_column_from_reconstructed_data_line dl with
  | (rk, some _) => !rk.isEmpty
  | (_, none) => false

theorem map_update_id (m : List HBaseRow) (rk : Str) (c : HBaseColumn)
    (h : rk ∉ rowKeys m) :
    m.map (fun r =>
      if r.row_key == rk then { r with columns := r.columns ++ [c] } else r) = m := by
  induction m with
  | nil => rfl
  | cons r t ih =>
    have hr : (r.row_key == rk) = false := by
      simp only [rowKeys, List.map_cons, List.mem_cons, not_or] at h
      simpa using fun e => h.1 e.symm
    have ht : rk ∉ rowKeys t := by
      simp only [rowKeys, List.map_cons, List.mem_cons, not_or] at h
      exact h.2
    simp only [List.map_cons, hr, Bool.false_eq_true, if_false, ih ht]

theorem rowKeys_addToRowMap_mem (m : List HBaseRow) (rk : Str) (c : HBaseColumn)
    (h : m.any (fun r => r.row_key == rk) = true) :
    rowKeys (addToRowMap m rk c) = rowKeys m := by
  simp only [addToRowMap, h, if_true, rowKeys, List.map_map]
  apply List.map_congr_left
  intro r _
  by_cases hr : (r.row_key == rk) = true
  · have e : r.row_key = rk := by simpa using hr
    simp [e]
  · have e : ¬(r.row_key = rk) := by simpa using hr
    simp [e]

theorem rowKeys_addToRowMap_not_mem (m : List HBaseRow) (rk : Str) (c : HBaseColumn)
    (h : m.any (fun r => r.row_key == rk) = false) :
    rowKeys (addToRowMap m rk c) = rowKeys m ++ [rk] := by
  simp [addToRowMap, h, rowKeys]

theorem not_mem_rowKeys_of_any_false (m : List HBaseRow) (rk : Str)
    (h : m.any (fun r => r.row_key == rk) = false) :
    rk ∉ rowKeys m := by
  intro hmem
  simp only [rowKeys, List.mem_map] at hmem
  obtain ⟨r, hr, he⟩ := hmem
  simp only [List.any_eq_false] at h
  exact h r hr (by simpa using he)

theorem rowKeys_nodup_addToRowMap (m : List HBaseRow) (rk : Str) (c : HBaseColumn)
    (h : (rowKeys m).Nodup) : (rowKeys (addToRowMap m rk c)).Nodup := by
  by_cases ha : m.any (fun r => r.row_key == rk) = true
  · rw [rowKeys_addToRowMap_mem m rk c ha]
    exact h
  · have ha2 : m.any (fun r => r.row_key == rk) = false := by
      simpa using ha
    rw [rowKeys_addToRowMap_not_mem m rk c ha2]
    simpa [List.nodup_append, h] using not_mem_rowKeys_of_any_false m rk ha2

theorem cellCount_map_update : ∀ (m : List HBaseRow) (rk : Str) (c : HBaseColumn),
    (rowKeys m).Nodup → m.any (fun r => r.row_key == rk) = true →
    cellCount (m.map (fun r =>
      if r.row_key == rk then { r with columns := r.columns ++ [c] } else r)) =
      cellCount m + 1 := by
  intro m rk c
  induction m with
  | nil =>
    intro _ ha
    cases ha
  | cons r t ih =>
    intro hnd ha
    by_cases hr : (r.row_key == rk) = true
    · have hrk : r.row_key = rk := by simpa using hr
      have hnot : rk ∉ rowKeys t := by
        simp only [rowKeys, List.map_cons, List.nodup_cons] at hnd
        rw [← hrk]
        exact hnd.1
      simp only [List.map_cons, hr, if_true, map_update_id t rk c hnot]
      simp only [cellCount, List.map_cons, List.sum_cons, List.length_append]
      simp
      omega
    · have hnd2 : (rowKeys t).Nodup := by
        simp only [rowKeys, List.map_cons, List.nodup_cons] at hnd
        exact hnd.2
      have ha2 : t.any (fun x => x.row_key == rk) = true := by
        simp only [List.any_cons, hr] at ha
        simpa using ha
      simp only [List.map_cons, hr, Bool.false_eq_true, if_false]
      have := ih hnd2 ha2
      simp only [cellCount, List.map_cons, List.sum_cons] at this ⊢
      omega

theorem cellCount_addToRowMap (m : List HBaseRow) (rk : Str) (c : HBaseColumn)
    (hnd : (rowKeys m).Nodup) :
    cellCount (addToRowMap m rk c) = cellCount m + 1 := by
  by_cases ha : m.any (fun r => r.row_key == rk) = true
  · simp only [addToRowMap, ha, if_true]
    exact cellCount_map_update m rk c hnd ha
  · have ha2 : m.any (fun r => r.row_key == rk) = false := by simpa using ha
    simp [addToRowMap, ha2, cellCount]

theorem mem_addToRowMap (m : List HBaseRow) (rk : Str) (c : HBaseColumn)
    (row : HBaseRow) (hrow : row ∈ addToRowMap m rk c)
    (c2 : HBaseColumn) (hc2 : c2 ∈ row.columns) :
    (∃ row2 ∈ m, row2.row_key = row.row_key ∧ c2 ∈ row2.columns) ∨
      (row.row_key = rk ∧ c2 = c) := by
  by_cases ha : m.any (fun r => r.row_key == rk) = true
  · simp only [addToRowMap, ha, if_true] at hrow
    obtain ⟨r, hr, he⟩ := List.mem_map.mp hrow
    by_cases hrk : (r.row_key == rk) = true
    · rw [if_pos hrk] at he
      subst he
      simp only at hc2
      rcases List.mem_append.mp hc2 with h1 | h2
      · exact Or.inl ⟨r, hr, rfl, h1⟩
      · have : c2 = c := by simpa using h2
        exact Or.inr ⟨by simpa using hrk, this⟩
    · rw [if_neg hrk] at he
      subst he
      exact Or.inl ⟨r, hr, rfl, hc2⟩
  · have ha2 : m.any (fun r => r.row_key == rk) = false := by simpa using ha
    simp only [addToRowMap, ha2, Bool.false_eq_true, if_false] at hrow
    rcases List.mem_append.mp hrow with h1 | h2
    · exact Or.inl ⟨row, h1, rfl, hc2⟩
    · have : row = ⟨rk, [c]⟩ := by simpa using h2
      subst this
      exact Or.inr ⟨rfl, by simpa using hc2⟩



/-- Cell provenance: the pair was extracted from one of the given lines. -/
def CellFrom (dls : List Str) (rk : Str) (c : HBaseColumn) : Prop :=
  ∃ dl ∈ dls,
    extract_row_key_and_column_from_reconstructed_data_line dl = (rk, some c)

theorem extractRowsStep_cases (m : List HBaseRow) (dl : Str) :
    (extractRowsStep m dl = m ∧ lineValid dl = false) ∨
    (∃ rk c, extract_row_key_and_column_from_reconstructed_data_line dl = (rk, some c) ∧
      rk.isEmpty = false ∧ lineValid dl = true ∧
      extractRowsStep m dl = addToRowMap m rk c) := by
  unfold extractRowsStep lineValid
  rcases he : extract_row_key_and_column_from_reconstructed_data_line dl with ⟨rk, oc⟩
  rcases oc with _ | c
  · exact Or.inl ⟨rfl, rfl⟩
  · by_cases hrk : rk.isEmpty = true
    · exact Or.inl ⟨by simp [hrk], by simp [hrk]⟩
    · have hrk2 : rk.isEmpty = false := by simpa using hrk
      exact Or.inr ⟨rk, c, rfl, hrk2, by simp [hrk2], by simp [hrk2]⟩

theorem extract_fold_invariant : ∀ (dls : List Str) (m : List HBaseRow),
    (rowKeys m).Nodup →
    ((rowKeys (dls.foldl extractRowsStep m)).Nodup ∧
      cellCount (dls.foldl extractRowsStep m) =
        cellCount m + (dls.filter lineValid).length ∧
      (∀ row ∈ dls.foldl extractRowsStep m, ∀ c ∈ row.columns,
        (∃ row2 ∈ m, row2.row_key = row.row_key ∧ c ∈ row2.columns) ∨
          CellFrom dls row.row_key c)) := by
  intro dls
  induction dls with
  | nil =>
    intro m hnd
    refine ⟨hnd, by simp, ?_⟩
    intro row hrow c hc
    exact Or.inl ⟨row, hrow, rfl, hc⟩
  | cons dl rest ih =>
    intro m hnd
    rcases extractRowsStep_cases m dl with ⟨heq, hval⟩ | ⟨rk, c, hext, hrk, hval, heq⟩
    · simp only [List.foldl_cons, heq, List.filter_cons, hval]
      obtain ⟨h1, h2, h3⟩ := ih m hnd
      refine ⟨h1, by simpa using h2, ?_⟩
      intro row hrow c hc
      rcases h3 row hrow c hc with hl | hr
      · exact Or.inl hl
      · obtain ⟨dl2, hdl2, he2⟩ := hr
        exact Or.inr ⟨dl2, by simp [hdl2], he2⟩
    · have hnd2 : (rowKeys (addToRowMap m rk c)).Nodup :=
        rowKeys_nodup_addToRowMap m rk c hnd
      obtain ⟨h1, h2, h3⟩ := ih (addToRowMap m rk c) hnd2
      simp only [List.foldl_cons, heq, List.filter_cons, hval]
      refine ⟨h1, ?_, ?_⟩
      · rw [h2, cellCount_addToRowMap m rk c hnd]
        simp
        omega
      · intro row hrow c2 hc2
        rcases h3 row hrow c2 hc2 with ⟨row2, hrow2, hkey, hc⟩ | hr
        · rcases mem_addToRowMap m rk c row2 hrow2 c2 hc with ⟨row3, hrow3, hkey3, hc3⟩ | ⟨hk, hcc⟩
          · exact Or.inl ⟨row3, hrow3, hkey3.trans hkey, hc3⟩
          · refine Or.inr ⟨dl, by simp, ?_⟩
            rw [hext, ← hkey, hk, hcc]
        · obtain ⟨dl2, hdl2, he2⟩ := hr
          exact Or.inr ⟨dl2, by simp [hdl2], he2⟩



/-- C4: for every list of reconstructed data lines, (1) no two produced rows
share a row key; (2) every cell in a produced row was parsed from an input
line whose row key equals that row's key; (3) the total number of cells
across all rows equals the number of valid input lines, so each parsed cell
is placed in exactly one row. -/
theorem C4_row_grouping_closure (data_lines : List Str) :
    ((extract_rows_from_reconstructed_data_lines data_lines).map
        (fun r => r.row_key)).Nodup ∧
    (∀ row ∈ extract_rows_from_reconstructed_data_lines data_lines,
        ∀ c ∈ row.columns,
        ∃ dl ∈ data_lines,
          extract_row_key_and_column_from_reconstructed_data_line dl =
            (row.row_key, some c)) ∧
    ((extract_rows_from_reconstructed_data_lines data_lines).map
        (fun r => r.columns.length)).sum =
      (data_lines.filter lineValid).length := by
  obtain ⟨h1, h2, h3⟩ := extract_fold_invariant data_lines [] (by simp [rowKeys])
  refine ⟨h1, ?_, ?_⟩
  · intro row hrow c hc
    rcases h3 row hrow c hc with ⟨row2, hrow2, _⟩ | hr
    · cases hrow2
    · exact hr
  · simpa [cellCount] using h2

theorem C4_row_grouping_closure_witness :
    ∃ dl ∈ [lit " rowA column=cf:q1, timestamp=1500, value=v1"],
      extract_row_key_and_column_from_reconstructed_data_line dl =
        ((⟨lit "rowA", [⟨lit "cf", lit "q1", 1500, lit "v1"⟩]⟩ : HBaseRow).row_key,
          some ⟨lit "cf", lit "q1", 1500, lit "v1"⟩) :=
  (C4_row_grouping_closure [lit " rowA column=cf:q1, timestamp=1500, value=v1"]).2.1
    ⟨lit "rowA", [⟨lit "cf", lit "q1", 1500, lit "v1"⟩]⟩ (by decide)
    ⟨lit "cf", lit "q1", 1500, lit "v1"⟩ (by decide)


/-! ### C2 (amended): fragment reconstruction round trip -/


/-- The first character exists and is not Python whitespace. -/
def headNonWs : Str → Bool
  | [] => false
  | c :: _ => !isPySpace c

/-- The last character exists and is not Python whitespace. -/
def lastNonWs (s : Str) : Bool := headNonWs s.reverse

/-- No character of the string is Python whitespace. -/
def wsFree (s : Str) : Bool := s.all (fun c => !isPySpace c)

theorem pyRstrip_eq_self (l : Str) (h : lastNonWs l = true) : pyRstrip l = l := by
  unfold lastNonWs headNonWs at h
  rcases hr : l.reverse with _ | ⟨c, t⟩
  · rw [hr] at h
    cases h
  · rw [hr] at h
    have hc : isPySpace c = false := by simpa using h
    unfold pyRstrip
    rw [hr, List.dropWhile_cons, hc]
    simp only [Bool.false_eq_true, if_false]
    rw [← hr, List.reverse_reverse]

theorem pyLstrip_eq_self (l : Str) (h : headNonWs l = true) : pyLstrip l = l := by
  rcases l with _ | ⟨c, t⟩
  · cases h
  · have hc : isPySpace c = false := by simpa [headNonWs] using h
    unfold pyLstrip
    rw [List.dropWhile_cons, hc]
    simp

theorem pyStrip_eq_self (l : Str) (hh : headNonWs l = true) (hl : lastNonWs l = true) :
    pyStrip l = l := by
  unfold pyStrip
  rw [pyLstrip_eq_self l hh, pyRstrip_eq_self l hl]

theorem headNonWs_of_wsFree (l : Str) (h : wsFree l = true) (hne : l ≠ []) :
    headNonWs l = true := by
  rcases l with _ | ⟨c, t⟩
  · exact absurd rfl hne
  · simp only [wsFree, List.all_cons, Bool.and_eq_true] at h
    simpa [headNonWs] using h.1

theorem lastNonWs_of_wsFree (l : Str) (h : wsFree l = true) (hne : l ≠ []) :
    lastNonWs l = true := by
  have hrev : wsFree l.reverse = true := by
    simp only [wsFree, List.all_eq_true] at h ⊢
    intro c hc
    exact h c (List.mem_reverse.mp hc)
  have hne2 : l.reverse ≠ [] := by simpa using hne
  exact headNonWs_of_wsFree l.reverse hrev hne2

theorem pyStrip_eq_self_of_wsFree (l : Str) (h : wsFree l = true) (hne : l ≠ []) :
    pyStrip l = l :=
  pyStrip_eq_self l (headNonWs_of_wsFree l h hne) (lastNonWs_of_wsFree l h hne)

theorem breakChar_space_append (rk col : Str) (h : wsFree rk = true) :
    breakChar ' ' (rk ++ ' ' :: col) = some (rk, col) := by
  induction rk with
  | nil => simp [breakChar]
  | cons c t ih =>
    simp only [wsFree, List.all_cons, Bool.and_eq_true] at h
    have hsp : isPySpace c = false := by simpa using h.1
    have hcp : c ≠ ' ' := by
      intro e
      subst e
      simp [isPySpace] at hsp
    have hc : (c == ' ') = false := by simpa using hcp
    have ih2 := ih h.2
    simp only [List.cons_append, breakChar, hc, Bool.false_eq_true, if_false,
      List.append_eq, ih2]

theorem pySplit1_space_append (rk col : Str) (h : wsFree rk = true) :
    pySplit1 ' ' (rk ++ ' ' :: col) = [rk, col] := by
  unfold pySplit1
  rw [breakChar_space_append rk col h]

theorem pySplit2_space_cont (rk2 col2 : Str) (h : wsFree rk2 = true) :
    pySplit2 ' ' (' ' :: (rk2 ++ ' ' :: col2)) = [[], rk2, col2] := by
  unfold pySplit2
  have e1 : breakChar ' ' (' ' :: (rk2 ++ ' ' :: col2)) =
      some ([], rk2 ++ ' ' :: col2) := by
    simp [breakChar]
  rw [e1]
  dsimp only
  rw [breakChar_space_append rk2 col2 h]

theorem takeWhile_nonWs_append (rk : Str) (rest : Str) (h : wsFree rk = true) :
    (rk ++ ' ' :: rest).takeWhile (fun d => !isPySpace d) = rk ∧
    (rk ++ ' ' :: rest).dropWhile (fun d => !isPySpace d) = ' ' :: rest := by
  induction rk with
  | nil => simp [List.takeWhile, List.dropWhile, isPySpace]
  | cons c t ih =>
    simp only [wsFree, List.all_cons, Bool.and_eq_true] at h
    obtain ⟨ht, hd⟩ := ih h.2
    constructor
    · simp only [List.cons_append, List.takeWhile_cons, h.1, if_true, ht]
    · simp only [List.cons_append, List.dropWhile_cons, h.1, if_true, hd]



theorem matchRkOnlyCont_token (rk2 : Str) (hne : rk2 ≠ []) (h : wsFree rk2 = true) :
    matchRkOnlyCont (' ' :: rk2) = true := by
  have ht : rk2.takeWhile (fun d => !isPySpace d) = rk2 :=
    List.takeWhile_eq_self_iff.mpr (by simpa [wsFree, List.all_eq_true] using h)
  have hd : rk2.dropWhile (fun d => !isPySpace d) = [] :=
    List.dropWhile_eq_nil_iff.mpr (by simpa [wsFree, List.all_eq_true] using h)
  have hsp : isPySpace ' ' = true := by decide
  have hemp : rk2.isEmpty = false := by
    rcases rk2 with _ | ⟨c, t⟩
    · exact absurd rfl hne
    · rfl
  simp [matchRkOnlyCont, hsp, ht, hd, hemp]

theorem matchRkOnlyCont_two_tokens (rk2 col2 : Str) (h : wsFree rk2 = true)
    (h2 : headNonWs col2 = true) :
    matchRkOnlyCont (' ' :: (rk2 ++ ' ' :: col2)) = false := by
  obtain ⟨ht, hd⟩ := takeWhile_nonWs_append rk2 col2 h
  have hsp : isPySpace ' ' = true := by decide
  rcases col2 with _ | ⟨e, t⟩
  · cases h2
  · have he : isPySpace e = false := by simpa [headNonWs] using h2
    simp [matchRkOnlyCont, hsp, ht, hd, he]

theorem matchRkColCont_two_tokens (rk2 col2 : Str) (hne : rk2 ≠ [])
    (h : wsFree rk2 = true) (h2 : headNonWs col2 = true) :
    matchRkColCont (' ' :: (rk2 ++ ' ' :: col2)) = true := by
  obtain ⟨ht, hd⟩ := takeWhile_nonWs_append rk2 col2 h
  have hsp : isPySpace ' ' = true := by decide
  have hemp : rk2.isEmpty = false := by
    rcases rk2 with _ | ⟨c, t⟩
    · exact absurd rfl hne
    · rfl
  rcases col2 with _ | ⟨e, t⟩
  · cases h2
  · have he : isPySpace e = false := by simpa [headNonWs] using h2
    simp [matchRkColCont, hsp, ht, hd, he, hemp]

theorem two_space_not_prefix (rk2 : Str) (rest : Str) (hne : rk2 ≠ [])
    (h : wsFree rk2 = true) :
    (lit "  ").isPrefixOf (' ' :: (rk2 ++ rest)) = false := by
  rcases rk2 with _ | ⟨c, t⟩
  · exact absurd rfl hne
  · simp only [wsFree, List.all_cons, Bool.and_eq_true] at h
    have hsp : isPySpace c = false := by simpa using h.1
    have hcpne : ' ' ≠ c := by
      intro e
      rw [← e] at hsp
      simp [isPySpace] at hsp
    have hcp : (' ' == c) = false := by simpa using hcpne
    show List.isPrefixOf (' ' :: ' ' :: []) (' ' :: (c :: t ++ rest)) = false
    simp [List.isPrefixOf, hcp]



theorem headNonWs_append (a b : Str) (ha : a ≠ []) :
    headNonWs (a ++ b) = headNonWs a := by
  rcases a with _ | ⟨c, t⟩
  · exact absurd rfl ha
  · rfl

theorem lastNonWs_append (a b : Str) (hb : b ≠ []) :
    lastNonWs (a ++ b) = lastNonWs b := by
  unfold lastNonWs
  rw [List.reverse_append]
  rcases hr : b.reverse with _ | ⟨c, t⟩
  · exact absurd (by simpa using hr) hb
  · rfl

theorem pyLstrip_cons_space (l : Str) : pyLstrip (' ' :: l) = pyLstrip l := by
  unfold pyLstrip
  rw [List.dropWhile_cons]
  simp [isPySpace]

theorem single_space_isPrefixOf (x : Str) : (lit " ").isPrefixOf (' ' :: x) = true := by
  show List.isPrefixOf (' ' :: []) (' ' :: x) = true
  simp [List.isPrefixOf]

theorem double_space_isPrefixOf (x : Str) :
    (lit "  ").isPrefixOf (' ' :: ' ' :: x) = true := by
  show List.isPrefixOf (' ' :: ' ' :: []) (' ' :: ' ' :: x) = true
  simp [List.isPrefixOf]

theorem rsdr_first (rk1 colX : Str) (hrk1 : rk1 ≠ []) (hw1 : wsFree rk1 = true)
    (hcne : colX ≠ []) (hch : headNonWs colX = true) (hcl : lastNonWs colX = true)
    (l2 : Str) :
    reconstruct_single_data_row [' ' :: (rk1 ++ ' ' :: colX), l2] =
      ' ' :: ((rsdrStep (rk1, colX) l2).1 ++ ' ' :: (rsdrStep (rk1, colX) l2).2) := by
  have hfl : pyRstrip (' ' :: (rk1 ++ ' ' :: colX)) = ' ' :: (rk1 ++ ' ' :: colX) := by
    apply pyRstrip_eq_self
    have e : ' ' :: (rk1 ++ ' ' :: colX) = (' ' :: rk1 ++ [' ']) ++ colX := by simp
    rw [e, lastNonWs_append _ _ hcne]
    exact hcl
  have hls : pyLstrip (' ' :: (rk1 ++ ' ' :: colX)) = rk1 ++ ' ' :: colX := by
    rw [pyLstrip_cons_space]
    apply pyLstrip_eq_self
    rw [headNonWs_append _ _ hrk1]
    exact headNonWs_of_wsFree rk1 hw1 hrk1
  have hsplit : pySplit1 ' ' (rk1 ++ ' ' :: colX) = [rk1, colX] :=
    pySplit1_space_append rk1 colX hw1
  unfold reconstruct_single_data_row
  dsimp only
  rw [hfl, hls, hsplit]
  dsimp only
  rw [pyStrip_eq_self_of_wsFree rk1 hw1 hrk1, pyStrip_eq_self colX hch hcl]
  rw [List.foldl_cons, List.foldl_nil]



theorem pyStrip_cons_space (l : Str) (hh : headNonWs l = true) (hl : lastNonWs l = true) :
    pyStrip (' ' :: l) = l := by
  unfold pyStrip
  rw [pyLstrip_cons_space, pyLstrip_eq_self l hh, pyRstrip_eq_self l hl]

theorem rsdrStep_rk_cont (rk col rk2 : Str) (hrk2 : rk2 ≠ []) (hw2 : wsFree rk2 = true) :
    rsdrStep (rk, col) (' ' :: rk2) = (rk ++ rk2, col) := by
  have hrst : pyRstrip (' ' :: rk2) = ' ' :: rk2 := by
    apply pyRstrip_eq_self
    have e : ' ' :: rk2 = [' '] ++ rk2 := rfl
    rw [e, lastNonWs_append _ _ hrk2]
    exact lastNonWs_of_wsFree rk2 hw2 hrk2
  have hst : pyStrip (' ' :: rk2) = rk2 :=
    pyStrip_cons_space rk2 (headNonWs_of_wsFree rk2 hw2 hrk2)
      (lastNonWs_of_wsFree rk2 hw2 hrk2)
  have hemp : rk2.isEmpty = false := by
    rcases rk2 with _ | ⟨c, t⟩
    · exact absurd rfl hrk2
    · rfl
  have h2sp : (lit "  ").isPrefixOf (' ' :: rk2) = false := by
    have := two_space_not_prefix rk2 [] hrk2 hw2
    simpa using this
  simp only [rsdrStep, hrst, hst, hemp, Bool.false_eq_true, if_false, h2sp,
    single_space_isPrefixOf, if_true, matchRkOnlyCont_token rk2 hrk2 hw2]

theorem rsdrStep_rk_col_cont (rk col rk2 col2 : Str) (hrk2 : rk2 ≠ [])
    (hw2 : wsFree rk2 = true) (hc2 : col2 ≠ []) (hch2 : headNonWs col2 = true)
    (hcl2 : lastNonWs col2 = true) :
    rsdrStep (rk, col) (' ' :: (rk2 ++ ' ' :: col2)) = (rk ++ rk2, col ++ col2) := by
  have hrst : pyRstrip (' ' :: (rk2 ++ ' ' :: col2)) = ' ' :: (rk2 ++ ' ' :: col2) := by
    apply pyRstrip_eq_self
    have e : ' ' :: (rk2 ++ ' ' :: col2) = (' ' :: rk2 ++ [' ']) ++ col2 := by simp
    rw [e, lastNonWs_append _ _ hc2]
    exact hcl2
  have hst : pyStrip (' ' :: (rk2 ++ ' ' :: col2)) = rk2 ++ ' ' :: col2 := by
    apply pyStrip_cons_space
    · rw [headNonWs_append _ _ hrk2]
      exact headNonWs_of_wsFree rk2 hw2 hrk2
    · have e : rk2 ++ ' ' :: col2 = (rk2 ++ [' ']) ++ col2 := by simp
      rw [e, lastNonWs_append _ _ hc2]
      exact hcl2
  have hemp : (rk2 ++ ' ' :: col2).isEmpty = false := by
    rcases rk2 with _ | ⟨c, t⟩
    · exact absurd rfl hrk2
    · rfl
  have h2sp := two_space_not_prefix rk2 (' ' :: col2) hrk2 hw2
  have hm1 := matchRkOnlyCont_two_tokens rk2 col2 hw2 hch2
  have hm2 := matchRkColCont_two_tokens rk2 col2 hrk2 hw2 hch2
  have hsplit := pySplit2_space_cont rk2 col2 hw2
  simp only [rsdrStep, hrst, hst, hemp, Bool.false_eq_true, if_false, h2sp,
    single_space_isPrefixOf, if_true, hm1, hm2, hsplit]
  rw [pyStrip_eq_self_of_wsFree rk2 hw2 hrk2, pyStrip_eq_self col2 hch2 hcl2]

theorem rsdrStep_col_cont (rk col col2 : Str) (hc2 : col2 ≠ [])
    (hch2 : headNonWs col2 = true) (hcl2 : lastNonWs col2 = true) :
    rsdrStep (rk, col) (' ' :: ' ' :: col2) = (rk, col ++ col2) := by
  have hrst : pyRstrip (' ' :: ' ' :: col2) = ' ' :: ' ' :: col2 := by
    apply pyRstrip_eq_self
    have e : ' ' :: ' ' :: col2 = [' ', ' '] ++ col2 := rfl
    rw [e, lastNonWs_append _ _ hc2]
    exact hcl2
  have hst : pyStrip (' ' :: ' ' :: col2) = col2 := by
    unfold pyStrip
    rw [pyLstrip_cons_space, pyLstrip_cons_space, pyLstrip_eq_self col2 hch2,
      pyRstrip_eq_self col2 hcl2]
  have hemp : col2.isEmpty = false := by
    rcases col2 with _ | ⟨c, t⟩
    · exact absurd rfl hc2
    · rfl
  simp only [rsdrStep, hrst, hst, hemp, Bool.false_eq_true, if_false,
    double_space_isPrefixOf, if_true]



theorem C2_fragment_reconstruction_roundtrip :
    ∀ rk1 rk2 col col1 col2 : Str,
      rk1 ≠ [] → wsFree rk1 = true → rk2 ≠ [] → wsFree rk2 = true →
      col ≠ [] → headNonWs col = true → lastNonWs col = true →
      col1 ≠ [] → headNonWs col1 = true → lastNonWs col1 = true →
      col2 ≠ [] → headNonWs col2 = true → lastNonWs col2 = true →
      (reconstruct_single_data_row [' ' :: (rk1 ++ ' ' :: col), ' ' :: rk2] =
        ' ' :: ((rk1 ++ rk2) ++ ' ' :: col)) ∧
      (reconstruct_single_data_row
          [' ' :: (rk1 ++ ' ' :: col1), ' ' :: (rk2 ++ ' ' :: col2)] =
        ' ' :: ((rk1 ++ rk2) ++ ' ' :: (col1 ++ col2))) ∧
      (reconstruct_single_data_row
          [' ' :: (rk1 ++ ' ' :: col1), ' ' :: ' ' :: col2] =
        ' ' :: (rk1 ++ ' ' :: (col1 ++ col2))) := by
  intro rk1 rk2 col col1 col2 h1 h2 h3 h4 h5 h6 h7 h8 h9 h10 h11 h12 h13
  refine ⟨?_, ?_, ?_⟩
  · rw [rsdr_first rk1 col h1 h2 h5 h6 h7, rsdrStep_rk_cont rk1 col rk2 h3 h4]
  · rw [rsdr_first rk1 col1 h1 h2 h8 h9 h10,
      rsdrStep_rk_col_cont rk1 col1 rk2 col2 h3 h4 h11 h12 h13]
  · rw [rsdr_first rk1 col1 h1 h2 h8 h9 h10,
      rsdrStep_col_cont rk1 col1 col2 h11 h12 h13]

theorem C2_fragment_reconstruction_roundtrip_witness :
    (reconstruct_single_data_row
        [' ' :: (lit "row" ++ ' ' :: lit "column=cf:q1, timestamp=1500, value=v1"),
          ' ' :: lit "A"] =
      ' ' :: ((lit "row" ++ lit "A") ++
        ' ' :: lit "column=cf:q1, timestamp=1500, value=v1")) ∧
    (reconstruct_single_data_row
        [' ' :: (lit "row" ++ ' ' :: lit "column=cf:q1, time"),
          ' ' :: (lit "A" ++ ' ' :: lit "stamp=1500, value=v1")] =
      ' ' :: ((lit "row" ++ lit "A") ++
        ' ' :: (lit "column=cf:q1, time" ++ lit "stamp=1500, value=v1"))) ∧
    (reconstruct_single_data_row
        [' ' :: (lit "row" ++ ' ' :: lit "column=cf:q1, time"),
          ' ' :: ' ' :: lit "stamp=1500, value=v1"] =
      ' ' :: (lit "row" ++
        ' ' :: (lit "column=cf:q1, time" ++ lit "stamp=1500, value=v1"))) :=
  C2_fragment_reconstruction_roundtrip (lit "row") (lit "A")
    (lit "column=cf:q1, timestamp=1500, value=v1") (lit "column=cf:q1, time")
    (lit "stamp=1500, value=v1")
    (by decide) (by decide) (by decide) (by decide) (by decide) (by decide)
    (by decide) (by decide) (by decide) (by decide) (by decide) (by decide)
    (by decide)


end SummerModules

namespace SummerModules

/-- The sections of the standard transcript used for the idempotence
theorem. -/
def cmd0 : Str := lit "scan 'mytable', \x7bTIMERANGE => [1000, 2000]\x7d"

def title0 : Str := lit "ROW COLUMN+CELL"

def rc0 : Str := lit "1 row(s)"

def took0 : Str := lit "Took 0.05 seconds"

def prompt0 : Str := lit "hbase(main):002:0>"

/-- An already-unwrapped data line assembled from a row key and column
text. -/
def mkLine (rk col : Str) : Str := ' ' :: (rk ++ ' ' :: col)

def mkLinePair (p : Str × Str) : Str := mkLine p.1 p.2

/-- Well-formedness of a (row key, column text) pair: nonempty
whitespace-free row key; nonempty, trim-stable, newline- and
carriage-return-free column text; and the assembled line matches the
data-row-start pattern. -/
def GoodPair (p : Str × Str) : Prop :=
  p.1 ≠ [] ∧ wsFree p.1 = true ∧ p.2 ≠ [] ∧ headNonWs p.2 = true ∧
    lastNonWs p.2 = true ∧
    p.2.all (fun c => !(c == '\n') && !(c == '\r')) = true ∧
    is_data_row_start (mkLine p.1 p.2) = true

/-- The standard already-reconstructed transcript over the given data
pairs. -/
def standardTranscript (ds : List (Str × Str)) : Str :=
  List.intercalate ['\n']
    ([cmd0, title0] ++ ds.map mkLinePair ++ [rc0, took0, prompt0])

/-- The reconstruction record the first pass produces on a standard
transcript; its `reconstructed` string is the transcript itself. -/
def standardRecon (ds : List (Str × Str)) : ReconstructTruncatedLinesResult :=
  { original := standardTranscript ds
    success := true
    command_line := cmd0
    row_title_line := title0
    data_lines := if ds.isEmpty then none else some (ds.map mkLinePair)
    row_count_line := rc0
    execution_time_line := took0
    subsequent_command_line := prompt0
    reconstructed := standardTranscript ds }

theorem pyRstrip_mkLine (rk col : Str) (hc : col ≠ []) (hcl : lastNonWs col = true) :
    pyRstrip (mkLine rk col) = mkLine rk col := by
  apply pyRstrip_eq_self
  have e : mkLine rk col = (' ' :: rk ++ [' ']) ++ col := by simp [mkLine]
  rw [e, lastNonWs_append _ _ hc]
  exact hcl

theorem pyStrip_mkLine (rk col : Str) (hrk : rk ≠ []) (hw : wsFree rk = true)
    (hc : col ≠ []) (hch : headNonWs col = true) (hcl : lastNonWs col = true) :
    pyStrip (mkLine rk col) = rk ++ ' ' :: col := by
  unfold mkLine
  apply pyStrip_cons_space
  · rw [headNonWs_append _ _ hrk]
    exact headNonWs_of_wsFree rk hw hrk
  · have e : rk ++ ' ' :: col = (rk ++ [' ']) ++ col := by simp
    rw [e, lastNonWs_append _ _ hc]
    exact hcl

theorem rsdr_singleton (rk col : Str) (hrk : rk ≠ []) (hw : wsFree rk = true)
    (hc : col ≠ []) (hch : headNonWs col = true) (hcl : lastNonWs col = true) :
    reconstruct_single_data_row [mkLine rk col] = mkLine rk col := by
  have hfl : pyRstrip (mkLine rk col) = mkLine rk col := pyRstrip_mkLine rk col hc hcl
  have hls : pyLstrip (mkLine rk col) = rk ++ ' ' :: col := by
    unfold mkLine
    rw [pyLstrip_cons_space]
    apply pyLstrip_eq_self
    rw [headNonWs_append _ _ hrk]
    exact headNonWs_of_wsFree rk hw hrk
  have hsplit : pySplit1 ' ' (rk ++ ' ' :: col) = [rk, col] :=
    pySplit1_space_append rk col hw
  unfold reconstruct_single_data_row
  dsimp only
  rw [hfl, hls, hsplit]
  dsimp only
  rw [pyStrip_eq_self_of_wsFree rk hw hrk, pyStrip_eq_self col hch hcl,
    List.foldl_nil]
  rfl

theorem matchScanCmd_space (x : Str) : matchScanCmd (' ' :: x) = false := rfl

theorem row_isPrefixOf_space (x : Str) : (lit "ROW").isPrefixOf (' ' :: x) = false := rfl

/-- A well-formed data line is classified into the data buffer. -/
theorem classifyStep_data (st : CState) (h1 : st.stuck = false)
    (h2 : st.absorbing = false) (rk col : Str) (hrk : rk ≠ [])
    (hw : wsFree rk = true) (hc : col ≠ []) (hch : headNonWs col = true)
    (hcl : lastNonWs col = true) :
    classifyStep st (mkLine rk col) =
      { st with data_lines := st.data_lines ++ [mkLine rk col] } := by
  have hfl := pyRstrip_mkLine rk col hc hcl
  simp only [classifyStep, h1, h2, Bool.false_eq_true, if_false, classifyMain, hfl]
  have e : mkLine rk col = ' ' :: (rk ++ ' ' :: col) := rfl
  rw [e, matchScanCmd_space, row_isPrefixOf_space, single_space_isPrefixOf]
  simp

theorem classify_data_lines : ∀ (ds : List (Str × Str)),
    (∀ p ∈ ds, GoodPair p) →
    ∀ st : CState, st.stuck = false → st.absorbing = false →
    List.foldl classifyStep st (ds.map mkLinePair) =
      { st with data_lines := st.data_lines ++ ds.map mkLinePair } := by
  intro ds
  induction ds with
  | nil =>
    intro _ st _ _
    simp
  | cons p rest ih =>
    intro h st h1 h2
    obtain ⟨g1, g2, g3, g4, g5, _, _⟩ := h p (by simp)
    have hstep := classifyStep_data st h1 h2 p.1 p.2 g1 g2 g3 g4 g5
    rw [List.map_cons, List.foldl_cons]
    have e : mkLinePair p = mkLine p.1 p.2 := rfl
    rw [e, hstep,
      ih (fun q hq => h q (by simp [hq]))
        { st with data_lines := st.data_lines ++ [mkLine p.1 p.2] } h1 h2]
    simp

theorem replCRLF_cons (c : Char) (rest : Str) (h : (c == '\r') = false) :
    replCRLF (c :: rest) = c :: replCRLF rest := by
  rw [replCRLF.eq_3]
  intro rest2 hc _
  rw [hc] at h
  simp at h

theorem replCRLF_id (s : Str) (h : s.all (fun c => !(c == '\r')) = true) :
    replCRLF s = s := by
  induction s with
  | nil => rfl
  | cons c rest ih =>
    rw [List.all_cons, Bool.and_eq_true] at h
    rw [replCRLF_cons c rest (by simpa using h.1), ih h.2]

theorem normalize_id (s : Str) (h : s.all (fun c => !(c == '\r')) = true) :
    normalizeNewlines s = s := by
  unfold normalizeNewlines
  rw [replCRLF_id s h]
  rw [List.all_eq_true] at h
  rw [List.map_congr_left (fun c hc => ?_), List.map_id]
  have hc2 := h c hc
  simp only [Bool.not_eq_eq_eq_not, Bool.not_true] at hc2
  simp [hc2]

theorem splitChar_no_sep (x : Str) (h : x.all (fun c => !(c == '\n')) = true) :
    splitChar '\n' x = [x] := by
  induction x with
  | nil => rfl
  | cons c rest ih =>
    rw [List.all_cons, Bool.and_eq_true] at h
    have hc : (c == '\n') = false := by simpa using h.1
    simp [splitChar, hc, ih h.2]

theorem splitChar_append (x rest : Str) (h : x.all (fun c => !(c == '\n')) = true) :
    splitChar '\n' (x ++ '\n' :: rest) = x :: splitChar '\n' rest := by
  induction x with
  | nil => simp [splitChar]
  | cons c t ih =>
    rw [List.all_cons, Bool.and_eq_true] at h
    have hc : (c == '\n') = false := by simpa using h.1
    rw [List.cons_append]
    simp only [splitChar, hc, Bool.false_eq_true, if_false]
    rw [ih h.2]

theorem intercalate_cons2 (x y : Str) (t : List Str) :
    List.intercalate ['\n'] (x :: y :: t) =
      x ++ '\n' :: List.intercalate ['\n'] (y :: t) := by
  simp [List.intercalate, List.intersperse]

theorem splitChar_intercalate : ∀ (ls : List Str), ls ≠ [] →
    (∀ l ∈ ls, l.all (fun c => !(c == '\n')) = true) →
    splitChar '\n' (List.intercalate ['\n'] ls) = ls := by
  intro ls
  induction ls with
  | nil => intro h; exact absurd rfl h
  | cons x t ih =>
    intro _ h
    match t with
    | [] =>
      have e : List.intercalate ['\n'] [x] = x := by simp [List.intercalate]
      rw [e, splitChar_no_sep x (h x (by simp))]
    | y :: t2 =>
      rw [intercalate_cons2, splitChar_append _ _ (h x (by simp)),
        ih (by simp) (fun l hl => h l (by simp [hl]))]

theorem all_intercalate (p : Char → Bool) (hn : p '\n' = true) :
    ∀ (ls : List Str), (∀ l ∈ ls, l.all p = true) →
    (List.intercalate ['\n'] ls).all p = true := by
  intro ls
  induction ls with
  | nil => intro _; rfl
  | cons x t ih =>
    intro h
    match t with
    | [] =>
      have e : List.intercalate ['\n'] [x] = x := by simp [List.intercalate]
      rw [e]
      exact h x (by simp)
    | y :: t2 =>
      rw [intercalate_cons2, List.all_append, List.all_cons, hn,
        h x (by simp), ih (fun l hl => h l (by simp [hl]))]
      rfl

theorem good_line_clean (p : Str × Str) (h : GoodPair p) :
    (mkLinePair p).all (fun c => !(c == '\n') && !(c == '\r')) = true := by
  obtain ⟨_, hw, _, _, _, hclean, _⟩ := h
  show (mkLine p.1 p.2).all _ = true
  unfold mkLine
  simp only [List.all_cons, List.all_append, Bool.and_eq_true]
  refine ⟨by decide, ?_, by decide, hclean⟩
  rw [List.all_eq_true]
  intro c hc
  rw [wsFree, List.all_eq_true] at hw
  have hcw := hw c hc
  simp only [Bool.not_eq_eq_eq_not, Bool.not_true] at hcw
  have h1 : (c == '\n') = false := by
    cases hb : (c == '\n') with
    | false => rfl
    | true =>
      rw [beq_iff_eq] at hb
      subst hb
      exact absurd hcw (by decide)
  have h2 : (c == '\r') = false := by
    cases hb : (c == '\r') with
    | false => rfl
    | true =>
      rw [beq_iff_eq] at hb
      subst hb
      exact absurd hcw (by decide)
  show (!(c == '\n') && !(c == '\r')) = true
  simp [h1, h2]

theorem clean_noNL (s : Str)
    (h : s.all (fun c => !(c == '\n') && !(c == '\r')) = true) :
    s.all (fun c => !(c == '\n')) = true := by
  rw [List.all_eq_true] at h ⊢
  intro c hc
  have hc2 := h c hc
  simp only [Bool.and_eq_true] at hc2
  exact hc2.1

theorem clean_noCR (s : Str)
    (h : s.all (fun c => !(c == '\n') && !(c == '\r')) = true) :
    s.all (fun c => !(c == '\r')) = true := by
  rw [List.all_eq_true] at h ⊢
  intro c hc
  have hc2 := h c hc
  simp only [Bool.and_eq_true] at hc2
  exact hc2.2

theorem transcript_lines_noNL (ds : List (Str × Str)) (h : ∀ p ∈ ds, GoodPair p) :
    ∀ l ∈ [cmd0, title0] ++ ds.map mkLinePair ++ [rc0, took0, prompt0],
      l.all (fun c => !(c == '\n')) = true := by
  intro l hl
  simp only [List.mem_append, List.mem_cons, List.mem_singleton,
    List.mem_map, List.not_mem_nil, or_false] at hl
  rcases hl with ((rfl | rfl) | ⟨q, hq, rfl⟩) | rfl | rfl | rfl
  · decide
  · decide
  · exact clean_noNL _ (good_line_clean q (h q hq))
  · decide
  · decide
  · decide

theorem transcript_noCR (ds : List (Str × Str)) (h : ∀ p ∈ ds, GoodPair p) :
    (standardTranscript ds).all (fun c => !(c == '\r')) = true := by
  unfold standardTranscript
  apply all_intercalate _ (by decide)
  intro l hl
  simp only [List.mem_append, List.mem_cons, List.mem_singleton,
    List.mem_map, List.not_mem_nil, or_false] at hl
  rcases hl with ((rfl | rfl) | ⟨q, hq, rfl⟩) | rfl | rfl | rfl
  · decide
  · decide
  · exact clean_noCR _ (good_line_clean q (h q hq))
  · decide
  · decide
  · decide

theorem transcript_lines (ds : List (Str × Str)) (h : ∀ p ∈ ds, GoodPair p) :
    splitChar '\n' (normalizeNewlines (standardTranscript ds)) =
      [cmd0, title0] ++ ds.map mkLinePair ++ [rc0, took0, prompt0] := by
  rw [normalize_id _ (transcript_noCR ds h)]
  unfold standardTranscript
  exact splitChar_intercalate _ (by simp) (transcript_lines_noNL ds h)

/-- The summary line updates only `row_count_line`. -/
theorem classifyStep_rc0 (st : CState) (h1 : st.stuck = false)
    (h2 : st.absorbing = false) :
    classifyStep st rc0 = { st with row_count_line := rc0 } := by
  have e1 : pyRstrip rc0 = rc0 := by decide
  have e2 : matchScanCmd rc0 = false := by decide
  have e3 : (lit "ROW").isPrefixOf rc0 = false := by decide
  have e4 : (lit " ").isPrefixOf rc0 = false := by decide
  have e5 : searchRowcount rc0 = true := by decide
  have e6 : pyStrip rc0 = rc0 := by decide
  simp only [classifyStep, h1, h2, Bool.false_eq_true, if_false, classifyMain,
    e1, e2, e3, e4, e5, e6]
  simp

/-- The execution-time line updates only `execution_time_line`. -/
theorem classifyStep_took0 (st : CState) (h1 : st.stuck = false)
    (h2 : st.absorbing = false) :
    classifyStep st took0 = { st with execution_time_line := took0 } := by
  have e1 : pyRstrip took0 = took0 := by decide
  have e2 : matchScanCmd took0 = false := by decide
  have e3 : (lit "ROW").isPrefixOf took0 = false := by decide
  have e4 : (lit " ").isPrefixOf took0 = false := by decide
  have e5 : searchRowcount took0 = false := by decide
  have e6 : (searchTook took0).isSome = true := by decide
  have e7 : pyStrip took0 = took0 := by decide
  simp only [classifyStep, h1, h2, Bool.false_eq_true, if_false, classifyMain,
    e1, e2, e3, e4, e5, e6, e7]
  simp

/-- The subsequent prompt line updates only `subsequent_command_line`. -/
theorem classifyStep_prompt0 (st : CState) (h1 : st.stuck = false)
    (h2 : st.absorbing = false) :
    classifyStep st prompt0 = { st with subsequent_command_line := prompt0 } := by
  have e1 : pyRstrip prompt0 = prompt0 := by decide
  have e2 : matchScanCmd prompt0 = false := by decide
  have e3 : (lit "ROW").isPrefixOf prompt0 = false := by decide
  have e4 : (lit " ").isPrefixOf prompt0 = false := by decide
  have e5 : searchRowcount prompt0 = false := by decide
  have e6 : (searchTook prompt0).isSome = false := by decide
  have e7 : matchPrompt prompt0 = true := by decide
  have e8 : pyStrip prompt0 = prompt0 := by decide
  simp only [classifyStep, h1, h2, Bool.false_eq_true, if_false, classifyMain,
    e1, e2, e3, e4, e5, e6, e7, e8]
  simp

/-- A well-formed data line starts a new group when one is already open. -/
theorem groupStep_good (done : List (List Str)) (cur : List Str) (hcur : cur ≠ [])
    (p : Str × Str) (hp : GoodPair p) :
    groupStep (some (done, cur)) (mkLinePair p) =
      some (done ++ [cur], [mkLinePair p]) := by
  obtain ⟨g1, g2, g3, g4, g5, _, g7⟩ := hp
  have e1 : pyRstrip (mkLinePair p) = mkLinePair p := pyRstrip_mkLine p.1 p.2 g3 g5
  have e2 : (pyStrip (mkLinePair p)).isEmpty = false := by
    show (pyStrip (mkLine p.1 p.2)).isEmpty = false
    rw [pyStrip_mkLine p.1 p.2 g1 g2 g3 g4 g5]
    simp
  have e3 : is_data_row_start (mkLinePair p) = true := g7
  match cur, hcur with
  | c :: cs, _ =>
    simp only [groupStep, e1, e2, e3]
    simp

theorem groupFold_good : ∀ (ds : List (Str × Str)), (∀ p ∈ ds, GoodPair p) →
    ∀ (done : List (List Str)) (cur : List Str), cur ≠ [] →
    ∃ done2 cur2,
      List.foldl groupStep (some (done, cur)) (ds.map mkLinePair) =
        some (done2, cur2) ∧ cur2 ≠ [] ∧
      done2 ++ [cur2] = (done ++ [cur]) ++ ds.map (fun p => [mkLinePair p]) := by
  intro ds
  induction ds with
  | nil =>
    intro _ done cur hcur
    exact ⟨done, cur, rfl, hcur, by simp⟩
  | cons p rest ih =>
    intro h done cur hcur
    rw [List.map_cons, List.foldl_cons, groupStep_good done cur hcur p (h p (by simp))]
    obtain ⟨done2, cur2, he, hne, heq⟩ :=
      ih (fun q hq => h q (by simp [hq])) (done ++ [cur]) [mkLinePair p] (by simp)
    exact ⟨done2, cur2, he, hne, by rw [heq]; simp⟩

/-- On a list of well-formed data lines, `reconstruct_complete_data_row`
returns the lines unchanged (or `None` when there are none). -/
theorem rcdr_good (ds : List (Str × Str)) (h : ∀ p ∈ ds, GoodPair p) :
    reconstruct_complete_data_row (ds.map mkLinePair) =
      if ds.isEmpty then none else some (ds.map mkLinePair) := by
  match ds with
  | [] => rfl
  | p :: rest =>
    obtain ⟨g1, g2, g3, g4, g5, _, g7⟩ := h p (by simp)
    have e1 : pyRstrip (mkLinePair p) = mkLinePair p := pyRstrip_mkLine p.1 p.2 g3 g5
    have e3 : is_data_row_start (mkLinePair p) = true := g7
    have hstep : groupStep (some ([], [])) (mkLinePair p) =
        some ([], [mkLinePair p]) := by
      simp only [groupStep, e1, e3]
      simp
    unfold reconstruct_complete_data_row
    rw [List.map_cons, List.foldl_cons, hstep]
    obtain ⟨done2, cur2, he, hne, heq⟩ :=
      groupFold_good rest (fun q hq => h q (by simp [hq])) [] [mkLinePair p]
        (by simp)
    rw [he]
    dsimp only
    have hc2 : cur2.isEmpty = false := by
      rcases cur2 with _ | ⟨a, t⟩
      · exact absurd rfl hne
      · rfl
    simp only [hc2, Bool.false_eq_true, if_false]
    have hgs : done2 ++ [cur2] = ((p :: rest).map (fun q => [mkLinePair q])) := by
      rw [heq]
      simp
    rw [hgs]
    have hmap : ((p :: rest).map (fun q => [mkLinePair q])).map
        reconstruct_single_data_row = (p :: rest).map mkLinePair := by
      rw [List.map_map]
      apply List.map_congr_left
      intro q hq
      obtain ⟨q1, q2, q3, q4, q5, _, _⟩ := h q hq
      show reconstruct_single_data_row [mkLinePair q] = mkLinePair q
      exact rsdr_singleton q.1 q.2 q1 q2 q3 q4 q5
    rw [hmap]
    have hfilt : ((p :: rest).map mkLinePair).filter (fun r => !r.isEmpty) =
        (p :: rest).map mkLinePair := by
      apply List.filter_eq_self.2
      intro a ha
      obtain ⟨q, _, rfl⟩ := List.mem_map.1 ha
      rfl
    rw [hfilt]
    simp

theorem classify_tail (st : CState) (h1 : st.stuck = false)
    (h2 : st.absorbing = false) :
    List.foldl classifyStep st [rc0, took0, prompt0] =
      { st with row_count_line := rc0, execution_time_line := took0,
                subsequent_command_line := prompt0 } := by
  rw [List.foldl_cons, classifyStep_rc0 st h1 h2]
  rw [List.foldl_cons, classifyStep_took0 { st with row_count_line := rc0 } h1 h2]
  rw [List.foldl_cons,
    classifyStep_prompt0
      { st with row_count_line := rc0, execution_time_line := took0 } h1 h2,
    List.foldl_nil]

theorem classify_standard (ds : List (Str × Str)) (h : ∀ p ∈ ds, GoodPair p) :
    List.foldl classifyStep initCState
        ([cmd0, title0] ++ ds.map mkLinePair ++ [rc0, took0, prompt0]) =
      ⟨false, false, [], [cmd0, title0], cmd0, title0, ds.map mkLinePair, rc0,
        took0, prompt0⟩ := by
  have hstA : List.foldl classifyStep initCState [cmd0, title0] =
      ⟨false, false, [], [cmd0, title0], cmd0, title0, [], [], [], []⟩ := by
    decide
  rw [List.foldl_append, List.foldl_append, hstA,
    classify_data_lines ds h
      ⟨false, false, [], [cmd0, title0], cmd0, title0, [], [], [], []⟩ rfl rfl]
  show List.foldl classifyStep
      ⟨false, false, [], [cmd0, title0], cmd0, title0, ds.map mkLinePair,
        [], [], []⟩ [rc0, took0, prompt0] = _
  rw [classify_tail
    ⟨false, false, [], [cmd0, title0], cmd0, title0, ds.map mkLinePair,
      [], [], []⟩ rfl rfl]

/-- A standard transcript parses to its expected record, whose
`reconstructed` string is the transcript itself. -/
theorem reconstruct_standard (ds : List (Str × Str)) (h : ∀ p ∈ ds, GoodPair p) :
    reconstruct_truncated_lines (standardTranscript ds) =
      some (standardRecon ds) := by
  have hlines := transcript_lines ds h
  have hfold := classify_standard ds h
  have hrcdr := rcdr_good ds h
  match ds, h with
  | [], _ => decide
  | p :: rest, h =>
    have hfin : finalizeCState
        ⟨false, false, [], [cmd0, title0], cmd0, title0,
          (p :: rest).map mkLinePair, rc0, took0, prompt0⟩ =
        ⟨false, false, [], [cmd0, title0], cmd0, title0,
          (p :: rest).map mkLinePair, rc0, took0, prompt0⟩ := by
      simp [finalizeCState]
    simp only [List.isEmpty_cons, Bool.false_eq_true, if_false] at hrcdr
    unfold reconstruct_truncated_lines
    rw [hlines]
    dsimp only
    rw [hfold, hfin]
    dsimp only
    rw [hrcdr]
    have e1 : rc0.isEmpty = false := by decide
    have e2 : took0.isEmpty = false := by decide
    have e3 : prompt0.isEmpty = false := by decide
    simp only [e1, e2, e3, Bool.false_eq_true, if_false]
    simp [standardRecon, standardTranscript]

/-- C6 (amended): reconstruction is idempotent on standard transcripts —
a scan echo, the `ROW ... COLUMN+CELL` header, well-formed unwrapped data
lines, the row-count line, the `Took` line, and the next prompt.  The first
pass returns the transcript itself as `reconstructed`, and a second pass on
that string returns the identical record. -/
theorem C6_idempotent_on_standard_transcripts (ds : List (Str × Str))
    (h : ∀ p ∈ ds, GoodPair p) :
    reconstruct_truncated_lines (standardTranscript ds) =
      some (standardRecon ds) ∧
    reconstruct_truncated_lines ((standardRecon ds).reconstructed) =
      some (standardRecon ds) := by
  have main := reconstruct_standard ds h
  exact ⟨main, main⟩

/-- Witness for the amended C6 theorem at a one-data-line transcript. -/
theorem C6_idempotent_on_standard_transcripts_witness :
    reconstruct_truncated_lines
        (standardTranscript
          [(lit "rowA", lit "column=cf:q1, timestamp=1500, value=v1")]) =
      some (standardRecon
        [(lit "rowA", lit "column=cf:q1, timestamp=1500, value=v1")]) ∧
    reconstruct_truncated_lines
        ((standardRecon
          [(lit "rowA", lit "column=cf:q1, timestamp=1500, value=v1")]).reconstructed) =
      some (standardRecon
        [(lit "rowA", lit "column=cf:q1, timestamp=1500, value=v1")]) :=
  C6_idempotent_on_standard_transcripts
    [(lit "rowA", lit "column=cf:q1, timestamp=1500, value=v1")]
    (by
      intro p hp
      simp only [List.mem_singleton] at hp
      subst hp
      refine ⟨by decide, by decide, by decide, by decide, by decide, by decide,
        by decide⟩)

end SummerModules
